import Mathlib

/-!
Shallow embedding of the core of the xv6-derived teaching kernel
(kernel/kalloc.c, kernel/vm.c, kernel/log.c, kernel/bio.c,
kernel/sysfile.c, kernel/fs.c) together with theorems settling the
specification claims about it.

Machine integers are modelled as `Nat` with explicit wrap-around where the
C code relies on it.  Panics and fatal checks are modelled as `Option`
results (`none` = panic).  Global mutable structures are modelled as
explicit state records threaded through the functions.
-/

namespace Xv6

set_option maxRecDepth 1000000
set_option maxHeartbeats 4000000
set_option linter.unusedVariables false

/-- PGSIZE from kernel/riscv.h: bytes per page. -/
def PGSIZE : Nat := 4096

/-- PTE_V from kernel/riscv.h. -/
def PTE_V : Nat := 1

/-- PTE_R from kernel/riscv.h. -/
def PTE_R : Nat := 2

/-- PTE_W from kernel/riscv.h. -/
def PTE_W : Nat := 4

/-- PTE_X from kernel/riscv.h. -/
def PTE_X : Nat := 8

/-- PTE_U from kernel/riscv.h. -/
def PTE_U : Nat := 16

/-- KERNBASE from kernel/memlayout.h. -/
def KERNBASE : Nat := 0x80000000

/-- PHYSTOP from kernel/memlayout.h: KERNBASE + 128 MiB. -/
def PHYSTOP : Nat := KERNBASE + 128*1024*1024

/-- MAXVA from kernel/riscv.h: 1 << (9+9+9+12-1). -/
def MAXVA : Nat := 1 <<< 38

/-- MAXOPBLOCKS from kernel/param.h. -/
def MAXOPBLOCKS : Nat := 10

/-- LOGSIZE from kernel/param.h: MAXOPBLOCKS*3. -/
def LOGSIZE : Nat := MAXOPBLOCKS*3

/-- NBUF from kernel/param.h: MAXOPBLOCKS*3. -/
def NBUF : Nat := MAXOPBLOCKS*3

/-- NBUFMAP_BUCKET from kernel/param.h. -/
def NBUFMAP_BUCKET : Nat := 13

/-- BUFMAP_HASH from kernel/param.h: (((dev)<<27)|(blockno)) % NBUFMAP_BUCKET. -/
def BUFMAP_HASH (dev blockno : Nat) : Nat :=
  (((dev <<< 27) ||| blockno)) % NBUFMAP_BUCKET

/-- NCPU from kernel/param.h. -/
def NCPU : Nat := 8

/-- PGROUNDDOWN from kernel/riscv.h: a & ~(PGSIZE-1). -/
def PGROUNDDOWN (a : Nat) : Nat := a - a % PGSIZE

/-- PGROUNDUP from kernel/riscv.h. -/
def PGROUNDUP (sz : Nat) : Nat := PGROUNDDOWN (sz + PGSIZE - 1)

/-- PA2PTE from kernel/riscv.h: ((pa) >> 12) << 10. -/
def PA2PTE (pa : Nat) : Nat := (pa >>> 12) <<< 10

/-- PTE2PA from kernel/riscv.h: ((pte) >> 10) << 12. -/
def PTE2PA (pte : Nat) : Nat := (pte >>> 10) <<< 12

/-- PTE_FLAGS from kernel/riscv.h: pte & 0x3FF. -/
def PTE_FLAGS (pte : Nat) : Nat := pte % 1024

/-- PX from kernel/riscv.h: 9-bit page-table index of va at a given level. -/
def PX (level va : Nat) : Nat := (va >>> (12 + 9*level)) % 512

/-- Pointwise update of a `Nat`-indexed table (models an array store). -/
def upd (f : Nat → Nat) (i v : Nat) : Nat → Nat :=
  fun j => if j = i then v else f j

/-- Byte i (little endian) of a 64-bit value. -/
def byteOf (v i : Nat) : Nat := (v >>> (8*i)) % 256

/-- memset(dst, v, n) on byte-addressed memory. -/
def memset (m : Nat → Nat) (dst v n : Nat) : Nat → Nat :=
  fun a => if dst ≤ a ∧ a < dst + n then v else m a

/-- Store of a 64-bit little-endian word at byte address a. -/
def write64 (m : Nat → Nat) (a v : Nat) : Nat → Nat :=
  fun x => if a ≤ x ∧ x < a + 8 then byteOf v (x - a) else m x

/-- Load of a 64-bit little-endian word at byte address a. -/
def read64 (m : Nat → Nat) (a : Nat) : Nat :=
  m a + 256 * (m (a+1) + 256 * (m (a+2) + 256 * (m (a+3) + 256 *
    (m (a+4) + 256 * (m (a+5) + 256 * (m (a+6) + 256 * m (a+7)))))))

/-- memmove(dst, src, n) on byte-addressed memory (non-overlapping use). -/
def memmove (m : Nat → Nat) (dst src n : Nat) : Nat → Nat :=
  fun a => if dst ≤ a ∧ a < dst + n then m (src + (a - dst)) else m a

/-!
## Physical machine state

`MState` is the state touched by kernel/kalloc.c and kernel/vm.c:
byte-addressed physical memory, plus the singleton `kmem` structure of
kalloc.c.  The intrusive free list (struct run chained through the pages
themselves) is modelled as the list of page addresses in chain order; the
`r->next` pointer bytes are additionally kept in `mem` by `kfree`.
`ref` models the `char *ref_page` array indexed by page index, `endSym`
the linker symbol `end` (where `ref_page` starts) and `page_cnt` the
number of counted pages, so the counted region starts at
`endSym + page_cnt` (kalloc.c kinit: `end_ = ref_page + page_cnt`).
-/

structure MState where
  mem : Nat → Nat
  freelist : List Nat
  ref : Nat → Nat
  endSym : Nat
  page_cnt : Nat

/-- The `kmem.end_` pointer computed by kinit: `end + page_cnt`. -/
def MState.endR (k : MState) : Nat := k.endSym + k.page_cnt

/-- page_index from kernel/kalloc.c.  The C computes
`(PGROUNDDOWN(pa) - end_) / PGSIZE` in uint64 and panics when the result,
viewed as an int, is negative or at least page_cnt; for `pa` below `end_`
the wrapped quotient is out of range, so the C panics there too, which the
model renders as `none`. -/
def page_index (k : MState) (pa : Nat) : Option Nat :=
  let d := PGROUNDDOWN pa
  if d < k.endR then none
  else
    let res := (d - k.endR) / PGSIZE
    if res < k.page_cnt then some res else none

/-- incr from kernel/kalloc.c: bump the reference count of the page
holding pa (under kmem.lock). -/
def incr (k : MState) (pa : Nat) : Option MState :=
  (page_index k pa).map fun index =>
    { k with ref := upd k.ref index (k.ref index + 1) }

/-- kfree from kernel/kalloc.c.  If the refcount is above 1 it is only
decremented; otherwise (after decrementing a count of exactly 1) the
address is validated, the page is filled with junk byte 1, its first
8 bytes are overwritten with the old list head (`r->next = kmem.freelist`)
and the page is pushed on the free list.  `none` models a panic. -/
def kfree (k : MState) (pa : Nat) : Option MState :=
  (page_index k pa).bind fun index =>
    if k.ref index > 1 then
      some { k with ref := upd k.ref index (k.ref index - 1) }
    else
      let k1 := if k.ref index = 1 then
          { k with ref := upd k.ref index (k.ref index - 1) } else k
      if pa % PGSIZE ≠ 0 ∨ pa < k.endSym ∨ PHYSTOP ≤ pa then none
      else
        let next := match k1.freelist with
          | [] => 0
          | h :: _ => h
        some { k1 with
                mem := write64 (memset k1.mem pa 1 PGSIZE) pa next,
                freelist := pa :: k1.freelist }

/-- kalloc from kernel/kalloc.c: pop the head of the single free list
under kmem.lock; on success fill the page with junk byte 5 and bump its
reference count.  The outer `Option` is panic (unreachable page index in
incr); the inner `Option Nat` is the returned pointer, `none` standing
for the null return when the free list is empty. -/
def kalloc (k : MState) : Option (Option Nat × MState) :=
  match k.freelist with
  | [] => some (none, k)
  | r :: rest =>
      let k1 : MState := { k with freelist := rest }
      let k2 : MState := { k1 with mem := memset k1.mem r 5 PGSIZE }
      (incr k2 r).map fun k3 => (some r, k3)

/-- Unfolding of `kalloc` on a non-empty free list. -/
theorem kalloc_cons (k : MState) (r : Nat) (rest : List Nat)
    (hf : k.freelist = r :: rest) :
    kalloc k = (page_index k r).map fun idx =>
      (some r, { k with freelist := rest,
                        mem := memset k.mem r 5 PGSIZE,
                        ref := upd k.ref idx (k.ref idx + 1) }) := by
  cases k with
  | mk m fl rf e pc =>
    cases hf
    simp only [kalloc, incr, Option.map_map]
    rfl

/-!
## Claim C2

The claim describes `kalloc` as maintaining one free list per hart,
popping from the caller's own list, stealing up to 64 frames from a
peer's list when the own list is empty, and failing exactly when every
hart's list is empty.  Since the source `kalloc` takes no hart argument
(it reads the single `kmem.freelist` under the single `kmem.lock`), the
claimed description must hold of the same transition no matter which
hart performs the call; the predicates below render the claim's phrases
for a hypothetical assignment `lists` of a free list to each hart in
each state.  These definitions follow the claim's words, for comparison
with the `kalloc` translated from the source.
-/

/-- Claim phrase: the free frames are exactly the frames on the harts'
free lists (each hart has "its own free list", and the lists hold the
allocator's free frames). -/
def C2Partition (lists : MState → Fin NCPU → List Nat) : Prop :=
  ∀ k p, p ∈ k.freelist ↔ ∃ h, p ∈ lists k h

/-- Claim phrase: the per-hart lists are separate lists, so a frame is on
at most one hart's list. -/
def C2Disjoint (lists : MState → Fin NCPU → List Nat) : Prop :=
  ∀ k (h h2 : Fin NCPU), h ≠ h2 → ∀ p, p ∈ lists k h → p ∉ lists k h2

/-- Claim phrase: "pops a frame from the current hart's own free list"
(when that list is non-empty). -/
def C2Pop (lists : MState → Fin NCPU → List Nat) : Prop :=
  ∀ k r k1, kalloc k = some (some r, k1) → ∀ h, lists k h ≠ [] →
    (lists k h).head? = some r ∧ lists k1 h = (lists k h).tail

/-- Claim phrase: "when that list is empty it steals up to 64 frames from
each other hart's list in turn": the allocation is served from a batch of
up to 64 frames removed from a peer's list, the unconsumed part of the
batch ending up on the caller's own list. -/
def C2Steal (lists : MState → Fin NCPU → List Nat) : Prop :=
  ∀ k r k1, kalloc k = some (some r, k1) → ∀ h, lists k h = [] →
    ∃ p, p ≠ h ∧ lists k p ≠ [] ∧
      ((lists k p).take 64).head? = some r ∧
      lists k1 h = ((lists k p).take 64).tail ∧
      lists k1 p = (lists k p).drop 64

/-- Claim phrase: "it fails with OutOfMemory exactly when every hart's
free list is empty". -/
def C2Fails (lists : MState → Fin NCPU → List Nat) : Prop :=
  ∀ k, (∃ k1, kalloc k = some (none, k1)) ↔ ∀ h, lists k h = []

/-- Claim C2 as stated: some assignment of per-hart free lists makes
`kalloc` behave as the pop/steal/fail description demands. -/
def ClaimC2 : Prop :=
  ∃ lists, C2Partition lists ∧ C2Disjoint lists ∧ C2Pop lists ∧
    C2Steal lists ∧ C2Fails lists

/-- A concrete allocator state: two free pages, all refcounts zero. -/
def K2 : MState :=
  { mem := fun _ => 0, freelist := [0x80002000, 0x80003000],
    ref := fun _ => 0, endSym := 0x80000000, page_cnt := 4096 }

/-- C2, counterexample.  The source `kalloc` keeps a single shared free
list and ignores the calling hart, so no assignment of per-hart lists can
satisfy the claim: on the concrete state `K2` with free frames
0x80002000 and 0x80003000, the pop clause forces every non-empty hart
list to start with the returned frame, hence exactly one hart owns all
free frames; reading the same transition from any other hart, the steal
clause then puts part of that hart's list on the other hart's list as
well, contradicting that the lists are separate. -/
theorem claimC2_false : ¬ ClaimC2 := by
  rintro ⟨lists, hpart, hdisj, hpop, hsteal, hfail⟩
  obtain ⟨X, hX⟩ : ∃ X, kalloc K2 = some (some 0x80002000, X) := ⟨_, rfl⟩
  -- some hart's list is non-empty in K2
  have hne : ¬ ∀ h, lists K2 h = [] := by
    intro hall
    obtain ⟨k1, hk1⟩ := (hfail K2).mpr hall
    rw [hX] at hk1
    simp at hk1
  push_neg at hne
  obtain ⟨h0, hh0⟩ := hne
  -- every non-empty hart list heads with the returned frame 0x80002000
  have hhead : ∀ h, lists K2 h ≠ [] →
      (lists K2 h).head? = some 0x80002000 :=
    fun h hh => (hpop K2 0x80002000 X hX h hh).1
  have hmemA : ∀ h, lists K2 h ≠ [] → 0x80002000 ∈ lists K2 h := by
    intro h hh
    obtain ⟨a, t, hat⟩ := List.exists_cons_of_ne_nil hh
    have := hhead h hh
    rw [hat] at this ⊢
    simp at this
    simp [this]
  -- hence h0 is the unique hart with a non-empty list
  have huniq : ∀ h, h ≠ h0 → lists K2 h = [] := by
    intro h hne0
    by_contra hh
    exact hdisj K2 h h0 hne0 0x80002000 (hmemA h hh) (hmemA h0 hh0)
  -- the second free frame is also on h0's list, behind the head
  have hBmem : (0x80003000 : Nat) ∈ lists K2 h0 := by
    obtain ⟨h, hmem⟩ := (hpart K2 0x80003000).mp (by simp [K2])
    rcases eq_or_ne h h0 with rfl | hne0
    · exact hmem
    · rw [huniq h hne0] at hmem
      simp at hmem
  obtain ⟨a, t, hat⟩ := List.exists_cons_of_ne_nil hh0
  have haA : a = 0x80002000 := by
    have := hhead h0 hh0
    rw [hat] at this
    simpa using this
  have htne : t ≠ [] := by
    intro ht
    rw [hat, haA, ht] at hBmem
    simp at hBmem
  -- read the same transition from a second hart h1
  obtain ⟨h1, hne1⟩ : ∃ h1 : Fin NCPU, h1 ≠ h0 := by
    rcases eq_or_ne h0 ⟨0, by decide⟩ with h | h
    · exact ⟨⟨1, by decide⟩, by rw [h]; decide⟩
    · exact ⟨⟨0, by decide⟩, fun e => h e.symm⟩
  obtain ⟨p, hph1, hpne, hphead, hh1post, hppost⟩ :=
    hsteal K2 0x80002000 X hX h1 (huniq h1 hne1)
  have hp0 : p = h0 := by
    by_contra hpp
    exact hpne (huniq p hpp)
  -- after the call, h0's list is the tail t ...
  have hh0post : lists X h0 = t := by
    have := (hpop K2 0x80002000 X hX h0 hh0).2
    rw [hat] at this
    simpa using this
  -- ... while h1's list is the first 63 frames of t: both own t's head
  have hh1t : lists X h1 = t.take 63 := by
    rw [hp0, hat] at hh1post
    simpa [List.take_succ_cons] using hh1post
  obtain ⟨c, t2, hct⟩ := List.exists_cons_of_ne_nil htne
  have hc1 : c ∈ lists X h1 := by
    rw [hh1t, hct]
    simp [List.take_succ_cons]
  have hc0 : c ∈ lists X h0 := by
    rw [hh0post, hct]
    simp
  exact hdisj X h1 h0 hne1 c hc1 hc0

/-- C2, amended.  The source allocator keeps one global free list under
the single kmem spinlock: `kalloc` pops the first frame of that list
(junk-filling it and bumping its reference count), there are no per-hart
lists and no stealing, and it fails (returns the null frame) exactly when
that single list is empty. -/
theorem kalloc_single_freelist (k : MState) :
    (k.freelist = [] → kalloc k = some (none, k)) ∧
    (∀ r rest idx, k.freelist = r :: rest → page_index k r = some idx →
      kalloc k = some (some r,
        { k with freelist := rest,
                 mem := memset k.mem r 5 PGSIZE,
                 ref := upd k.ref idx (k.ref idx + 1) })) ∧
    ((∃ k1, kalloc k = some (none, k1)) ↔ k.freelist = []) := by
  refine ⟨?_, ?_, ?_⟩
  · intro hf
    cases k with
    | mk m fl rf e pc =>
      cases hf
      rfl
  · intro r rest idx hf hpi
    rw [kalloc_cons k r rest hf, hpi]
    rfl
  · constructor
    · rintro ⟨k1, hk1⟩
      cases hf : k.freelist with
      | nil => rfl
      | cons r rest =>
        rw [kalloc_cons k r rest hf] at hk1
        cases hpi : page_index k r <;> rw [hpi] at hk1 <;> simp at hk1
    · intro hf
      refine ⟨k, ?_⟩
      cases k with
      | mk m fl rf e pc =>
        cases hf
        rfl

/-- Witness for the amended C2 theorem at concrete states: the empty
free list fails, and the two-frame state `K2` pops 0x80002000. -/
theorem kalloc_single_freelist_witness :
    kalloc { K2 with freelist := [] } = some (none, { K2 with freelist := [] }) ∧
    kalloc K2 = some (some 0x80002000,
      { K2 with freelist := [0x80003000],
                mem := memset K2.mem 0x80002000 5 PGSIZE,
                ref := upd K2.ref 1 (K2.ref 1 + 1) }) := by
  constructor
  · exact (kalloc_single_freelist { K2 with freelist := [] }).1 rfl
  · exact (kalloc_single_freelist K2).2.1 0x80002000 [0x80003000] 1 rfl rfl

/-- C9: the allocator's per-page reference counting.  A successful
`kalloc` fills the page with junk byte 5 and bumps its count (so the
count becomes 1 when the page was uncounted, as free pages are);
`kfree` of a page whose count exceeds 1 only decrements the count,
leaving the free list and the memory contents unchanged; and a page is
junk-filled with byte 1 (outside the 8 bytes then used for the intrusive
next pointer) and pushed on the free list exactly in the remaining case,
count at most 1 before the call. -/
theorem kalloc_kfree_refcount :
    (∀ k r k1, kalloc k = some (some r, k1) →
       (∀ j, j < PGSIZE → k1.mem (r + j) = 5) ∧
       (∀ idx, page_index k r = some idx →
          k1.ref idx = k.ref idx + 1 ∧ (k.ref idx = 0 → k1.ref idx = 1))) ∧
    (∀ k pa idx, page_index k pa = some idx → 1 < k.ref idx →
       kfree k pa = some { k with ref := upd k.ref idx (k.ref idx - 1) }) ∧
    (∀ k pa idx, page_index k pa = some idx → k.ref idx ≤ 1 →
       pa % PGSIZE = 0 → k.endSym ≤ pa → pa < PHYSTOP →
       ∃ k1, kfree k pa = some k1 ∧ k1.freelist = pa :: k.freelist ∧
         k1.ref idx = 0 ∧ ∀ j, 8 ≤ j → j < PGSIZE → k1.mem (pa + j) = 1) := by
  refine ⟨?_, ?_, ?_⟩
  · intro k r k1 hk
    cases hf : k.freelist with
    | nil =>
      cases k with
      | mk m fl rf e pc =>
        cases hf
        simp [kalloc] at hk
    | cons r0 rest =>
      rw [kalloc_cons k r0 rest hf] at hk
      cases hpi : page_index k r0 with
      | none => rw [hpi] at hk; simp at hk
      | some idx0 =>
        rw [hpi] at hk
        simp at hk
        obtain ⟨hr, hk1⟩ := hk
        cases hr
        constructor
        · intro j hj
          rw [← hk1]
          simp only [memset]
          rw [if_pos (by constructor <;> omega)]
        · intro idx hidx
          rw [hpi] at hidx
          cases hidx
          rw [← hk1]
          simp only [upd]
          constructor
          · simp
          · intro h0
            simp [h0]
  · intro k pa idx hpi hgt
    simp only [kfree]
    rw [hpi]
    simp only [Option.some_bind]
    rw [if_pos hgt]
  · intro k pa idx hpi hle hal hlo hhi
    simp only [kfree]
    rw [hpi]
    simp only [Option.some_bind]
    rw [if_neg (by omega)]
    rw [if_neg (by push_neg; exact ⟨hal, hlo, by omega⟩)]
    rcases Nat.lt_or_ge (k.ref idx) 1 with h0 | h1
    · have h00 : k.ref idx = 0 := by omega
      rw [if_neg (by omega)]
      refine ⟨_, rfl, rfl, h00, ?_⟩
      intro j hj8 hjp
      simp only [write64, memset]
      rw [if_neg (by omega), if_pos (by constructor <;> omega)]
    · have h11 : k.ref idx = 1 := by omega
      rw [if_pos h11]
      refine ⟨_, rfl, rfl, ?_, ?_⟩
      · simp [upd, h11]
      · intro j hj8 hjp
        simp only [write64, memset]
        rw [if_neg (by omega), if_pos (by constructor <;> omega)]

/-- A concrete state for exercising `kfree`: page 0x80002000 has
reference count 2, page 0x80003000 has count 1. -/
def K9 : MState :=
  { mem := fun _ => 0, freelist := [],
    ref := fun i => if i = 1 then 2 else if i = 2 then 1 else 0,
    endSym := 0x80000000, page_cnt := 4096 }

/-- Witness for C9 at concrete inputs: allocating from `K2` junk-fills
with byte 5 and sets the count of the popped page to 1; freeing the
doubly-referenced page of `K9` only decrements; freeing the
singly-referenced page pushes it junk-filled with byte 1. -/
theorem kalloc_kfree_refcount_witness :
    (∃ k1, kalloc K2 = some (some 0x80002000, k1) ∧
      k1.mem (0x80002000 + 17) = 5 ∧ k1.ref 1 = 1) ∧
    kfree K9 0x80002000 =
      some { K9 with ref := upd K9.ref 1 (K9.ref 1 - 1) } ∧
    (∃ k1, kfree K9 0x80003000 = some k1 ∧
      k1.freelist = [0x80003000] ∧ k1.ref 2 = 0 ∧
      k1.mem (0x80003000 + 17) = 1) := by
  refine ⟨?_, ?_, ?_⟩
  · obtain ⟨X, hX⟩ : ∃ X, kalloc K2 = some (some 0x80002000, X) := ⟨_, rfl⟩
    obtain ⟨hjunk, href⟩ := kalloc_kfree_refcount.1 K2 0x80002000 X hX
    exact ⟨X, hX, hjunk 17 (by decide),
      (href 1 rfl).2 rfl⟩
  · exact kalloc_kfree_refcount.2.1 K9 0x80002000 1 rfl (by decide)
  · obtain ⟨k1, hk1, hfl, href, hmem⟩ :=
      kalloc_kfree_refcount.2.2 K9 0x80003000 2 rfl (by decide) (by decide)
        (by decide) (by decide)
    exact ⟨k1, hk1, by rw [hfl]; rfl, href, hmem 17 (by decide) (by decide)⟩

/-!
## Virtual memory (kernel/vm.c)

The Sv39 page-table walkers operate on the same `MState`: page tables
live in physical memory, PTEs are 64-bit little-endian words.  The walk
descends levels 2 and 1; `walkGo` recurses over the remaining levels.
The C returns a PTE pointer or 0; the model returns the byte address of
the level-0 PTE, with 0 standing for the null return.  The tests
`pte % 2 = 1` render `*pte & PTE_V`.
-/

/-- Inner loop of walk from kernel/vm.c over the remaining interior
levels: read the PTE at the current level; descend when valid; otherwise
allocate a page-table page when `alloc` is set (kalloc, zero it, install
`PA2PTE | PTE_V`), or return the null pointer. -/
def walkGo (va : Nat) (alloc : Bool) :
    List Nat → Nat → MState → Option (Nat × MState)
  | [], pt, k => some (pt + 8 * PX 0 va, k)
  | level :: rest, pt, k =>
      let pteAddr := pt + 8 * PX level va
      let pte := read64 k.mem pteAddr
      if pte % 2 = 1 then
        walkGo va alloc rest (PTE2PA pte) k
      else if alloc = false then some (0, k)
      else match kalloc k with
        | none => none
        | some (none, k1) => some (0, k1)
        | some (some pg, k1) =>
            let k2 : MState := { k1 with mem := memset k1.mem pg 0 PGSIZE }
            let k3 : MState :=
              { k2 with mem := write64 k2.mem pteAddr (PA2PTE pg ||| PTE_V) }
            walkGo va alloc rest pg k3

/-- walk from kernel/vm.c; panics (`none`) when va is at or above MAXVA. -/
def walk (k : MState) (pt va : Nat) (alloc : Bool) : Option (Nat × MState) :=
  if MAXVA ≤ va then none
  else walkGo va alloc [2, 1] pt k

/-- One iteration of the mappages loop from kernel/vm.c: walk with
allocation, fail with -1 on a null PTE pointer, panic on remap, else
install the leaf PTE. -/
def mappagesStep (pt perm a pa : Nat) (k : MState) :
    Option ((Int × MState) ⊕ MState) :=
  match walk k pt a true with
  | none => none
  | some (pteAddr, k1) =>
    if pteAddr = 0 then some (Sum.inl (-1, k1))
    else
      let pte := read64 k1.mem pteAddr
      if pte % 2 = 1 then none
      else some (Sum.inr
        { k1 with mem := write64 k1.mem pteAddr (PA2PTE pa ||| perm ||| PTE_V) })

/-- The mappages loop; the first argument counts the pages remaining
after the current one (`(last - a) / PGSIZE` at entry), matching the
`a == last` exit test. -/
def mappagesGo (pt perm : Nat) : Nat → Nat → Nat → MState → Option (Int × MState)
  | 0, a, pa, k =>
    match mappagesStep pt perm a pa k with
    | none => none
    | some (Sum.inl r) => some r
    | some (Sum.inr k2) => some (0, k2)
  | Nat.succ n, a, pa, k =>
    match mappagesStep pt perm a pa k with
    | none => none
    | some (Sum.inl r) => some r
    | some (Sum.inr k2) => mappagesGo pt perm n (a + PGSIZE) (pa + PGSIZE) k2

/-- mappages from kernel/vm.c. -/
def mappages (k : MState) (pt va size pa perm : Nat) : Option (Int × MState) :=
  let a := PGROUNDDOWN va
  let last := PGROUNDDOWN (va + size - 1)
  mappagesGo pt perm ((last - a) / PGSIZE) a pa k

/-- The uvmunmap loop from kernel/vm.c: for each page, find the leaf
PTE (panicking on a missing walk, an unmapped page or a non-leaf),
optionally kfree the frame, and clear the PTE. -/
def uvmunmapGo (pt : Nat) (do_free : Bool) : Nat → Nat → MState → Option MState
  | 0, _, k => some k
  | Nat.succ n, a, k =>
    match walk k pt a false with
    | none => none
    | some (pteAddr, k1) =>
      if pteAddr = 0 then none
      else
        let pte := read64 k1.mem pteAddr
        if pte % 2 = 0 then none
        else if PTE_FLAGS pte = PTE_V then none
        else
          let step : Option MState :=
            if do_free then kfree k1 (PTE2PA pte) else some k1
          match step with
          | none => none
          | some k2 =>
            let k3 : MState := { k2 with mem := write64 k2.mem pteAddr 0 }
            uvmunmapGo pt do_free n (a + PGSIZE) k3

/-- uvmunmap from kernel/vm.c; panics when va is not page aligned. -/
def uvmunmap (k : MState) (pt va npages : Nat) (do_free : Bool) : Option MState :=
  if va % PGSIZE ≠ 0 then none
  else uvmunmapGo pt do_free npages va k

/-- The uvmcopy loop from kernel/vm.c: for each source page, read the
parent's leaf PTE (panicking when absent or invalid), allocate a fresh
frame, copy the parent page's contents into it with memmove, and map it
into the child with the parent's flags; on allocation or mapping failure
undo the child mappings built so far and return -1. -/
def uvmcopyGo (old new : Nat) : Nat → Nat → MState → Option (Int × MState)
  | 0, _, k => some (0, k)
  | Nat.succ n, i, k =>
    match walk k old i false with
    | none => none
    | some (pteAddr, k1) =>
      if pteAddr = 0 then none
      else
        let pte := read64 k1.mem pteAddr
        if pte % 2 = 0 then none
        else
          let pa := PTE2PA pte
          let flags := PTE_FLAGS pte
          match kalloc k1 with
          | none => none
          | some (none, k2) =>
              (uvmunmap k2 new 0 (i / PGSIZE) true).map fun k3 => ((-1 : Int), k3)
          | some (some dst, k2) =>
              let k3 : MState := { k2 with mem := memmove k2.mem dst pa PGSIZE }
              match mappages k3 new i PGSIZE dst flags with
              | none => none
              | some (r, k4) =>
                if r = 0 then uvmcopyGo old new n (i + PGSIZE) k4
                else
                  match kfree k4 dst with
                  | none => none
                  | some k5 =>
                      (uvmunmap k5 new 0 (i / PGSIZE) true).map
                        fun k6 => ((-1 : Int), k6)

/-- uvmcopy from kernel/vm.c; the loop `for(i = 0; i < sz; i += PGSIZE)`
runs once per page of the rounded-up size. -/
def uvmcopy (k : MState) (old new sz : Nat) : Option (Int × MState) :=
  uvmcopyGo old new ((sz + PGSIZE - 1) / PGSIZE) 0 k



/-- memset leaves addresses outside [dst, dst+n) unchanged. -/
theorem memset_out (m : Nat → Nat) (dst v n a : Nat)
    (h : a < dst ∨ dst + n ≤ a) : memset m dst v n a = m a := by
  simp only [memset]
  rw [if_neg]
  omega

/-- write64 leaves addresses outside [a, a+8) unchanged. -/
theorem write64_out (m : Nat → Nat) (a v x : Nat)
    (h : x < a ∨ a + 8 ≤ x) : write64 m a v x = m x := by
  simp only [write64]
  rw [if_neg]
  omega

/-- memmove reads the source byte for addresses inside [dst, dst+n). -/
theorem memmove_in (m : Nat → Nat) (dst src n a : Nat)
    (h1 : dst ≤ a) (h2 : a < dst + n) :
    memmove m dst src n a = m (src + (a - dst)) := by
  simp only [memmove]
  rw [if_pos]
  exact ⟨h1, h2⟩

/-- memmove leaves addresses outside [dst, dst+n) unchanged. -/
theorem memmove_out (m : Nat → Nat) (dst src n a : Nat)
    (h : a < dst ∨ dst + n ≤ a) : memmove m dst src n a = m a := by
  simp only [memmove]
  rw [if_neg]
  omega

/-!
## Claim C1: a concrete fork-time address-space copy

The parent address space has two mapped pages: va 0 backed by frame
0x80004000 with flags V|R|W|U = 23 (a writable leaf), and va 0x1000
backed by frame 0x80009000 with flags V|R|U = 19.  Its page-table pages
are 0x80001000 (root) -> 0x80002000 -> 0x80003000 (leaf table).  The
child root 0x80005000 is empty (all zeroes).  The free list holds four
frames; data pages hold the address-dependent pattern `a % 256`.
-/

/-- Initial physical memory for the C1 scenario. -/
def C1mem : Nat → Nat := fun a =>
  if 0x80001000 ≤ a ∧ a < 0x80001008 then
    byteOf (PA2PTE 0x80002000 ||| 1) (a - 0x80001000)
  else if 0x80002000 ≤ a ∧ a < 0x80002008 then
    byteOf (PA2PTE 0x80003000 ||| 1) (a - 0x80002000)
  else if 0x80003000 ≤ a ∧ a < 0x80003008 then
    byteOf (PA2PTE 0x80004000 ||| 23) (a - 0x80003000)
  else if 0x80003008 ≤ a ∧ a < 0x80003010 then
    byteOf (PA2PTE 0x80009000 ||| 19) (a - 0x80003008)
  else if 0x80004000 ≤ a ∧ a < 0x80005000 then a % 256
  else if 0x80009000 ≤ a ∧ a < 0x8000A000 then a % 256
  else 0

/-- Machine state for the C1 scenario. -/
def K1 : MState :=
  { mem := C1mem,
    freelist := [0x80006000, 0x80007000, 0x80008000, 0x8000A000],
    ref := fun _ => 0, endSym := 0x80000000, page_cnt := 0x1000 }

/-- The uvmcopy run of the C1 scenario: parent root 0x80001000, child
root 0x80005000, two pages. -/
def C1run : Option (Int × MState) :=
  uvmcopy K1 0x80001000 0x80005000 (2*PGSIZE)

/-- State after the first kalloc of the run (the copy frame for va 0):
frame 0x80006000 popped, junk-filled and counted. -/
def C1s1 : MState :=
  { mem := memset C1mem 0x80006000 5 PGSIZE,
    freelist := [0x80007000, 0x80008000, 0x8000A000],
    ref := upd K1.ref 5 1,
    endSym := 0x80000000, page_cnt := 0x1000 }

/-- State after mappages has installed va 0 in the child: on top of the
page copy into 0x80006000 sit, in execution order, the junk memset,
zero memset and root install for page-table page 0x80007000, the same
three for 0x80008000, and the leaf install mapping frame 0x80006000. -/
def C1s3 : MState :=
  { mem := write64 (write64 (memset (memset (write64 (memset (memset
      (memmove C1s1.mem 0x80006000 0x80004000 PGSIZE)
      0x80007000 5 PGSIZE)
      0x80007000 0 PGSIZE)
      0x80005000 (PA2PTE 0x80007000 ||| PTE_V))
      0x80008000 5 PGSIZE)
      0x80008000 0 PGSIZE)
      0x80007000 (PA2PTE 0x80008000 ||| PTE_V))
      0x80008000 (PA2PTE 0x80006000 ||| 23 ||| PTE_V),
    freelist := [0x8000A000],
    ref := upd (upd C1s1.ref 6 1) 7 1,
    endSym := 0x80000000, page_cnt := 0x1000 }

/-- State after the second iteration's kalloc: the last free frame
0x8000A000 popped, junk-filled and counted. -/
def C1s4 : MState :=
  { mem := memset C1s3.mem 0x8000A000 5 PGSIZE,
    freelist := [],
    ref := upd C1s3.ref 9 1,
    endSym := 0x80000000, page_cnt := 0x1000 }

/-- The state the run leaves behind: the page copy into 0x8000A000 and
the leaf install for va 0x1000 on top of `C1s4`. -/
def C1final : MState :=
  { mem := write64 (memmove C1s4.mem 0x8000A000 0x80009000 PGSIZE)
      0x80008008 (PA2PTE 0x8000A000 ||| 19 ||| PTE_V),
    freelist := [],
    ref := upd C1s3.ref 9 1,
    endSym := 0x80000000, page_cnt := 0x1000 }

theorem hw1 : walk K1 0x80001000 0 false = some (0x80003000, K1) := rfl

theorem hp1 : read64 K1.mem 0x80003000 = PA2PTE 0x80004000 ||| 23 := rfl

theorem hk1 : kalloc K1 = some (some 0x80006000, C1s1) := rfl

theorem hm1 : mappages
    { C1s1 with mem := memmove C1s1.mem 0x80006000 0x80004000 PGSIZE }
    0x80005000 0 PGSIZE 0x80006000 23 = some (0, C1s3) := rfl

theorem hw3 : walk C1s3 0x80001000 PGSIZE false =
    some (0x80003008, C1s3) := rfl

theorem hp2 : read64 C1s3.mem 0x80003008 = PA2PTE 0x80009000 ||| 19 := rfl

theorem hk2 : kalloc C1s3 = some (some 0x8000A000, C1s4) := rfl

theorem hm2 : mappages
    { C1s4 with mem := memmove C1s4.mem 0x8000A000 0x80009000 PGSIZE }
    0x80005000 PGSIZE PGSIZE 0x8000A000 19 = some (0, C1final) := rfl

/-- The C1 run, evaluated: the loop body is stepped with the small
equations above, one operation at a time. -/
theorem C1run_eq : C1run = some (0, C1final) := by
  have h2 : (2*PGSIZE + PGSIZE - 1) / PGSIZE = Nat.succ (Nat.succ 0) := by
    decide
  have e1 : PTE2PA (PA2PTE 0x80004000 ||| 23) = 0x80004000 := by decide
  have f1 : PTE_FLAGS (PA2PTE 0x80004000 ||| 23) = 23 := by decide
  have m1 : (PA2PTE 0x80004000 ||| 23) % 2 = 1 := by decide
  have e2 : PTE2PA (PA2PTE 0x80009000 ||| 19) = 0x80009000 := by decide
  have f2 : PTE_FLAGS (PA2PTE 0x80009000 ||| 19) = 19 := by decide
  have m2 : (PA2PTE 0x80009000 ||| 19) % 2 = 1 := by decide
  show uvmcopyGo 0x80001000 0x80005000 ((2*PGSIZE + PGSIZE - 1) / PGSIZE)
    0 K1 = some (0, C1final)
  rw [h2]
  simp [uvmcopyGo, hw1, hp1, m1, e1, f1, hk1, hm1, hw3, hp2, m2, e2, f2,
    hk2, hm2]

/-- The copied pages read back the parent's bytes: address arithmetic
through the operation layers of `C1final`. -/
theorem C1copy (j : Nat) (hj : j < PGSIZE) :
    C1final.mem (0x80006000 + j) = K1.mem (0x80004000 + j) ∧
    C1final.mem (0x8000A000 + j) = K1.mem (0x80009000 + j) := by
  have hPG : PGSIZE = 4096 := rfl
  have hj4 : j < 4096 := by rw [hPG] at hj; exact hj
  constructor
  · simp only [C1final, C1s4, C1s3, C1s1, K1]
    rw [hPG, write64_out _ _ _ _ (by omega),
      memmove_out _ _ _ _ _ (by omega),
      memset_out _ _ _ _ _ (by omega),
      write64_out _ _ _ _ (by omega),
      write64_out _ _ _ _ (by omega),
      memset_out _ _ _ _ _ (by omega),
      memset_out _ _ _ _ _ (by omega),
      write64_out _ _ _ _ (by omega),
      memset_out _ _ _ _ _ (by omega),
      memset_out _ _ _ _ _ (by omega),
      memmove_in _ _ _ _ _ (by omega) (by omega),
      memset_out _ _ _ _ _ (by omega)]
    have e : 0x80004000 + (0x80006000 + j - 0x80006000) = 0x80004000 + j := by
      omega
    rw [e]
  · simp only [C1final, C1s4, C1s3, C1s1, K1]
    rw [hPG, write64_out _ _ _ _ (by omega),
      memmove_in _ _ _ _ _ (by omega) (by omega),
      memset_out _ _ _ _ _ (by omega),
      write64_out _ _ _ _ (by omega),
      write64_out _ _ _ _ (by omega),
      memset_out _ _ _ _ _ (by omega),
      memset_out _ _ _ _ _ (by omega),
      write64_out _ _ _ _ (by omega),
      memset_out _ _ _ _ _ (by omega),
      memset_out _ _ _ _ _ (by omega),
      memmove_out _ _ _ _ _ (by omega),
      memset_out _ _ _ _ _ (by omega)]
    have e : 0x80009000 + (0x8000A000 + j - 0x8000A000) = 0x80009000 + j := by
      omega
    rw [e]

/-- C1, counterexample.  On the concrete two-page parent of `K1`,
`uvmcopy` succeeds and: the parent's leaf PTEs are left exactly as they
were, the writable one still writable (W bit set) with no
software-reserved COW marking; the child's leaf PTEs map the freshly
allocated frames 0x80006000 and 0x8000A000, not the parent's frames
0x80004000 and 0x80009000 (different frame numbers); the parent frames'
reference counts stay 0 (nothing was shared or incremented for them,
only the fresh frames got count 1); and the page contents were copied at
fork time (the child byte at offset 0x123 already equals the parent's
pattern byte 0x23).  Each point contradicts the claimed copy-on-write
behaviour of uvmcopy. -/
theorem uvmcopy_not_cow :
    (C1run.map fun p => p.1) = some 0 ∧
    (C1run.map fun p =>
      [read64 p.2.mem 0x80003000, read64 p.2.mem 0x80003008,
       read64 p.2.mem 0x80008000, read64 p.2.mem 0x80008008,
       p.2.ref 3, p.2.ref 8, p.2.ref 5, p.2.ref 9,
       p.2.mem 0x80006123, p.2.mem 0x8000A456])
      = some [PA2PTE 0x80004000 ||| 23, PA2PTE 0x80009000 ||| 19,
              PA2PTE 0x80006000 ||| 23, PA2PTE 0x8000A000 ||| 19,
              0, 0, 1, 1, 0x23, 0x56] ∧
    read64 K1.mem 0x80003000 = (PA2PTE 0x80004000 ||| 23) ∧
    (PA2PTE 0x80004000 ||| 23) / 4 % 2 = 1 ∧
    PTE2PA (PA2PTE 0x80006000 ||| 23) ≠ PTE2PA (PA2PTE 0x80004000 ||| 23) ∧
    PTE2PA (PA2PTE 0x8000A000 ||| 19) ≠ PTE2PA (PA2PTE 0x80009000 ||| 19) ∧
    K1.mem 0x80004123 = 0x23 ∧ K1.mem 0x80009456 = 0x56 := by
  refine ⟨by rw [C1run_eq]; rfl, by rw [C1run_eq]; decide, by decide,
    by decide, by decide, by decide, by decide, by decide⟩


/-- kalloc on an empty free list returns the null frame and leaves the
state untouched. -/
theorem kalloc_nil (k : MState) (hf : k.freelist = []) :
    kalloc k = some (none, k) := by
  cases k with
  | mk m fl rf e pc =>
    cases hf
    rfl

/-- The machine state after the kalloc and page copy of one uvmcopy
iteration: the fresh frame dst is popped off the free list (leaving
rest), junk-filled with byte 5, overwritten with the parent frame pa's
PGSIZE bytes, and its reference count (at page index idx) bumped. -/
def copyStep (k : MState) (dst idx pa : Nat) (rest : List Nat) : MState :=
  { k with freelist := rest,
           mem := memmove (memset k.mem dst 5 PGSIZE) dst pa PGSIZE,
           ref := upd k.ref idx (k.ref idx + 1) }

/-- C1, amended.  Every iteration of uvmcopy's loop copies eagerly and
shares nothing: for any state in which walk finds the parent's leaf PTE
(non-null and valid), if a free frame dst is available the iteration
pops it off the single free list, bumps its reference count (leaving
every other count alone), fills it with the parent frame's bytes right
away - so the child's copy exists at fork time - changes no byte
outside dst (the parent's page-table entries and data frames included),
and proceeds to map dst, not the parent's frame, into the child with
exactly the parent's PTE flags, recursing on success and undoing the
child mappings on failure; when the free list is empty it undoes the
child mappings built so far and returns -1.  No COW marking, no flag
change and no frame sharing occurs anywhere. -/
theorem uvmcopy_eager_copy (old new n i : Nat) (k : MState)
    (pteAddr pte dst idx : Nat) (rest : List Nat)
    (hw : walk k old i false = some (pteAddr, k))
    (hz : pteAddr ≠ 0)
    (hpte : read64 k.mem pteAddr = pte)
    (hv : pte % 2 = 1) :
    (k.freelist = dst :: rest → page_index k dst = some idx →
      (uvmcopyGo old new (Nat.succ n) i k =
        match mappages (copyStep k dst idx (PTE2PA pte) rest) new i PGSIZE
            dst (PTE_FLAGS pte) with
        | none => none
        | some (r, k4) =>
          if r = 0 then uvmcopyGo old new n (i + PGSIZE) k4
          else
            match kfree k4 dst with
            | none => none
            | some k5 =>
                (uvmunmap k5 new 0 (i / PGSIZE) true).map
                  fun k6 => ((-1 : Int), k6)) ∧
      (copyStep k dst idx (PTE2PA pte) rest).freelist = rest ∧
      (copyStep k dst idx (PTE2PA pte) rest).ref idx = k.ref idx + 1 ∧
      (∀ i2, i2 ≠ idx →
        (copyStep k dst idx (PTE2PA pte) rest).ref i2 = k.ref i2) ∧
      ((PTE2PA pte + PGSIZE ≤ dst ∨ dst + PGSIZE ≤ PTE2PA pte) →
        dst ≠ PTE2PA pte ∧
        ∀ j, j < PGSIZE →
          (copyStep k dst idx (PTE2PA pte) rest).mem (dst + j) =
            k.mem (PTE2PA pte + j)) ∧
      (∀ x, x < dst ∨ dst + PGSIZE ≤ x →
        (copyStep k dst idx (PTE2PA pte) rest).mem x = k.mem x)) ∧
    (k.freelist = [] →
      uvmcopyGo old new (Nat.succ n) i k =
        (uvmunmap k new 0 (i / PGSIZE) true).map
          fun k3 => ((-1 : Int), k3)) := by
  have hv0 : ¬ pte % 2 = 0 := by omega
  have hp0 : 0 < PGSIZE := by decide
  constructor
  · intro hfl hidx
    refine ⟨?_, rfl, ?_, ?_, ?_, ?_⟩
    · simp only [uvmcopyGo, hw]
      rw [if_neg hz, hpte]
      rw [if_neg hv0]
      rw [kalloc_cons k dst rest hfl, hidx]
      simp only [Option.map_some']
      rfl
    · simp [copyStep, upd]
    · intro i2 hne
      simp [copyStep, upd, hne]
    · intro hdisj
      refine ⟨by omega, ?_⟩
      intro j hj
      simp only [copyStep]
      rw [memmove_in _ _ _ _ _ (by omega) (by omega)]
      have e : dst + j - dst = j := by omega
      rw [e]
      rw [memset_out _ _ _ _ _ (by omega)]
    · intro x hx
      simp only [copyStep]
      rw [memmove_out _ _ _ _ _ (by omega)]
      rw [memset_out _ _ _ _ _ (by omega)]
  · intro hfl
    simp only [uvmcopyGo, hw]
    rw [if_neg hz, hpte]
    rw [if_neg hv0]
    rw [kalloc_nil k hfl]

/-- Witness for the amended C1 theorem, at the concrete scenario `K1`:
the first loop iteration for va 0 (frame 0x80006000 fresh off the free
list, parent frame 0x80004000), instantiating the copied-byte clause at
offset 7 and the reference-count clause. -/
theorem uvmcopy_eager_copy_witness :
    (copyStep K1 0x80006000 5 (PTE2PA (PA2PTE 0x80004000 ||| 23))
        [0x80007000, 0x80008000, 0x8000A000]).mem (0x80006000 + 7) =
      K1.mem (PTE2PA (PA2PTE 0x80004000 ||| 23) + 7) ∧
    (copyStep K1 0x80006000 5 (PTE2PA (PA2PTE 0x80004000 ||| 23))
        [0x80007000, 0x80008000, 0x8000A000]).ref 5 = K1.ref 5 + 1 := by
  have h := (uvmcopy_eager_copy 0x80001000 0x80005000 1 0 K1 0x80003000
    (PA2PTE 0x80004000 ||| 23) 0x80006000 5
    [0x80007000, 0x80008000, 0x8000A000] rfl (by decide) (by decide)
    (by decide)).1 rfl rfl
  obtain ⟨-, -, href, -, hcopy, -⟩ := h
  exact ⟨(hcopy (by decide)).2 7 (by decide), href⟩

/-!
## Write-ahead log (kernel/log.c)

The log state combines the singleton `struct log` of log.c with the
parts of the buffer cache it interacts with: `cache` maps a block number
to the cached buffer contents when the block is cached, `disk` is the
on-disk contents, `pins` the buffer reference counts (moved by
bget/brelse inside bread/brelse and by bpin/bunpin), and `writes` the
trace of disk writes issued by `bwrite`, in order.  Block contents are
opaque values; a header block holds the list of logged block numbers
(its `n` field is the list's length). -/

inductive BVal where
  | hdr (ns : List Nat)
  | data (v : Nat)
deriving DecidableEq

/-- Pointwise update of a `Nat`-indexed table, for an arbitrary value
type. -/
def updF {α : Type} (f : Nat → α) (i : Nat) (v : α) : Nat → α :=
  fun j => if j = i then v else f j

structure LogSt where
  start : Nat
  size : Nat
  outstanding : Int
  committing : Bool
  lh : List Nat
  cache : Nat → Option BVal
  disk : Nat → BVal
  pins : Nat → Int
  writes : List (Nat × BVal)

/-- The data bread would return for block b: the cached contents when
present, otherwise the on-disk contents. -/
def breadVal (s : LogSt) (b : Nat) : BVal :=
  (s.cache b).getD (s.disk b)

/-- bread from kernel/bio.c as the log sees it: return the block's data,
cache it, and take a reference on the buffer. -/
def bread (s : LogSt) (b : Nat) : LogSt :=
  { s with cache := updF s.cache b (some (breadVal s b)),
           pins := updF s.pins b (s.pins b + 1) }

/-- bwrite from kernel/bio.c: write the buffer's current data to disk,
recording the write in the trace. -/
def bwrite (s : LogSt) (b : Nat) : LogSt :=
  { s with disk := updF s.disk b (breadVal s b),
           writes := s.writes ++ [(b, breadVal s b)] }

/-- brelse from kernel/bio.c as the log sees it: drop the reference
taken by bread. -/
def brelse (s : LogSt) (b : Nat) : LogSt :=
  { s with pins := updF s.pins b (s.pins b - 1) }

/-- bpin from kernel/bio.c: refcnt++. -/
def bpin (s : LogSt) (b : Nat) : LogSt :=
  { s with pins := updF s.pins b (s.pins b + 1) }

/-- bunpin from kernel/bio.c: refcnt--. -/
def bunpin (s : LogSt) (b : Nat) : LogSt :=
  { s with pins := updF s.pins b (s.pins b - 1) }

/-- A memmove into a cached buffer's data. -/
def cacheWrite (s : LogSt) (b : Nat) (v : BVal) : LogSt :=
  { s with cache := updF s.cache b (some v) }

/-- write_head from kernel/log.c: read the header block, copy the
in-memory header (n and the n block numbers) into it, write it to disk,
release the buffer. -/
def write_head (s : LogSt) : LogSt :=
  let s1 := bread s s.start
  let s2 := cacheWrite s1 s.start (BVal.hdr s.lh)
  let s3 := bwrite s2 s.start
  brelse s3 s.start

/-- One iteration of the write_log loop from kernel/log.c (`tail` is the
loop index): read the log block and the cached home block, copy the home
block's data into the log block, write the log block to disk, release
both buffers. -/
def write_logStep (start tail b : Nat) (s : LogSt) : LogSt :=
  let s1 := bread s (start + tail + 1)
  let s2 := bread s1 b
  let v := breadVal s2 b
  let s3 := cacheWrite s2 (start + tail + 1) v
  let s4 := bwrite s3 (start + tail + 1)
  let s5 := brelse s4 b
  brelse s5 (start + tail + 1)

/-- The loop of write_log from kernel/log.c. -/
def write_logGo (start : Nat) : Nat → List Nat → LogSt → LogSt
  | _, [], s => s
  | tail, b :: rest, s =>
    write_logGo start (tail + 1) rest (write_logStep start tail b s)

/-- write_log from kernel/log.c. -/
def write_log (s : LogSt) : LogSt :=
  write_logGo s.start 0 s.lh s

/-- One iteration of the install_trans loop from kernel/log.c: read the
log block and the home block, copy the log block's data into the home
block, write it to disk, unpin the home buffer (when not recovering),
release both buffers. -/
def install_transStep (start tail b : Nat) (recovering : Bool) (s : LogSt) :
    LogSt :=
  let s1 := bread s (start + tail + 1)
  let s2 := bread s1 b
  let v := breadVal s2 (start + tail + 1)
  let s3 := cacheWrite s2 b v
  let s4 := bwrite s3 b
  let s5 := if recovering then s4 else bunpin s4 b
  let s6 := brelse s5 (start + tail + 1)
  brelse s6 b

/-- The loop of install_trans from kernel/log.c. -/
def install_transGo (start : Nat) (recovering : Bool) :
    Nat → List Nat → LogSt → LogSt
  | _, [], s => s
  | tail, b :: rest, s =>
    install_transGo start recovering (tail + 1) rest
      (install_transStep start tail b recovering s)

/-- install_trans from kernel/log.c. -/
def install_trans (recovering : Bool) (s : LogSt) : LogSt :=
  install_transGo s.start recovering 0 s.lh s

/-- commit from kernel/log.c: when the in-memory header is non-empty,
write the log blocks, write the header (the commit point), install the
log into the home locations, clear n in memory, and write the empty
header; otherwise do nothing. -/
def commit (s : LogSt) : LogSt :=
  if s.lh.length > 0 then
    let s1 := write_log s
    let s2 := write_head s1
    let s3 := install_trans false s2
    let s4 : LogSt := { s3 with lh := [] }
    write_head s4
  else s

/-- Result of one pass of the begin_op wait loop. -/
inductive BeginRes where
  | sleeps
  | proceeds (s : LogSt)
deriving Nonempty

/-- One pass of the begin_op loop from kernel/log.c: under log.lock,
sleep while committing, sleep while the worst-case footprint
`log.lh.n + (log.outstanding+1)*MAXOPBLOCKS` would exceed LOGSIZE, and
otherwise take an outstanding slot and return. -/
def begin_opStep (s : LogSt) : BeginRes :=
  if s.committing then BeginRes.sleeps
  else if (s.lh.length : Int) + (s.outstanding + 1) * (MAXOPBLOCKS : Int)
      > (LOGSIZE : Int) then BeginRes.sleeps
  else BeginRes.proceeds { s with outstanding := s.outstanding + 1 }

/-- log_write from kernel/log.c: panic when the transaction is too big
or none is open; under log.lock scan the header for the block number
(log absorption; the C rewrites the found slot with the same number),
and append and pin only when it is new. -/
def log_write (s : LogSt) (bno : Nat) : Option LogSt :=
  if LOGSIZE ≤ s.lh.length ∨ s.size - 1 ≤ s.lh.length then none
  else if s.outstanding < 1 then none
  else if bno ∈ s.lh then some s
  else some (bpin { s with lh := s.lh ++ [bno] } bno)

/-- bread leaves every block's readable data unchanged. -/
theorem breadVal_bread (s : LogSt) (y x : Nat) :
    breadVal (bread s y) x = breadVal s x := by
  simp only [breadVal, bread, updF]
  split
  · next h => subst h; rfl
  · rfl

/-- cacheWrite changes the readable data only at the written block. -/
theorem breadVal_cacheWrite (s : LogSt) (y : Nat) (v : BVal) (x : Nat) :
    breadVal (cacheWrite s y v) x = if x = y then v else breadVal s x := by
  simp only [breadVal, cacheWrite, updF]
  split <;> rfl

/-- bwrite leaves every block's readable data unchanged (the written
block's disk copy becomes its readable data). -/
theorem breadVal_bwrite (s : LogSt) (y x : Nat) :
    breadVal (bwrite s y) x = breadVal s x := by
  simp only [breadVal, bwrite, updF]
  cases hc : s.cache x with
  | some v => simp
  | none =>
    simp only [Option.getD_none]
    split
    · next h =>
      subst h
      simp [breadVal, hc]
    · rfl

theorem breadVal_brelse (s : LogSt) (y x : Nat) :
    breadVal (brelse s y) x = breadVal s x := rfl

theorem breadVal_bunpin (s : LogSt) (y x : Nat) :
    breadVal (bunpin s y) x = breadVal s x := rfl

theorem bread_pins (s : LogSt) (y : Nat) :
    (bread s y).pins = updF s.pins y (s.pins y + 1) := rfl

theorem brelse_pins (s : LogSt) (y : Nat) :
    (brelse s y).pins = updF s.pins y (s.pins y - 1) := rfl

theorem bunpin_pins (s : LogSt) (y : Nat) :
    (bunpin s y).pins = updF s.pins y (s.pins y - 1) := rfl

theorem bwrite_pins (s : LogSt) (y : Nat) : (bwrite s y).pins = s.pins := rfl

theorem cacheWrite_pins (s : LogSt) (y : Nat) (v : BVal) :
    (cacheWrite s y v).pins = s.pins := rfl

theorem bread_writes (s : LogSt) (y : Nat) : (bread s y).writes = s.writes := rfl

theorem brelse_writes (s : LogSt) (y : Nat) :
    (brelse s y).writes = s.writes := rfl

theorem bunpin_writes (s : LogSt) (y : Nat) :
    (bunpin s y).writes = s.writes := rfl

theorem bwrite_writes (s : LogSt) (y : Nat) :
    (bwrite s y).writes = s.writes ++ [(y, breadVal s y)] := rfl

theorem cacheWrite_writes (s : LogSt) (y : Nat) (v : BVal) :
    (cacheWrite s y v).writes = s.writes := rfl

theorem bread_disk (s : LogSt) (y : Nat) : (bread s y).disk = s.disk := rfl

theorem brelse_disk (s : LogSt) (y : Nat) : (brelse s y).disk = s.disk := rfl

theorem bunpin_disk (s : LogSt) (y : Nat) : (bunpin s y).disk = s.disk := rfl

theorem bwrite_disk (s : LogSt) (y : Nat) :
    (bwrite s y).disk = updF s.disk y (breadVal s y) := rfl

theorem cacheWrite_disk (s : LogSt) (y : Nat) (v : BVal) :
    (cacheWrite s y v).disk = s.disk := rfl

theorem bread_start (s : LogSt) (y : Nat) : (bread s y).start = s.start := rfl

theorem bread_size (s : LogSt) (y : Nat) : (bread s y).size = s.size := rfl

theorem bread_outstanding (s : LogSt) (y : Nat) : (bread s y).outstanding = s.outstanding := rfl

theorem bread_committing (s : LogSt) (y : Nat) : (bread s y).committing = s.committing := rfl

theorem bread_lh (s : LogSt) (y : Nat) : (bread s y).lh = s.lh := rfl

theorem brelse_start (s : LogSt) (y : Nat) : (brelse s y).start = s.start := rfl

theorem brelse_size (s : LogSt) (y : Nat) : (brelse s y).size = s.size := rfl

theorem brelse_outstanding (s : LogSt) (y : Nat) : (brelse s y).outstanding = s.outstanding := rfl

theorem brelse_committing (s : LogSt) (y : Nat) : (brelse s y).committing = s.committing := rfl

theorem brelse_lh (s : LogSt) (y : Nat) : (brelse s y).lh = s.lh := rfl

theorem bunpin_start (s : LogSt) (y : Nat) : (bunpin s y).start = s.start := rfl

theorem bunpin_size (s : LogSt) (y : Nat) : (bunpin s y).size = s.size := rfl

theorem bunpin_outstanding (s : LogSt) (y : Nat) : (bunpin s y).outstanding = s.outstanding := rfl

theorem bunpin_committing (s : LogSt) (y : Nat) : (bunpin s y).committing = s.committing := rfl

theorem bunpin_lh (s : LogSt) (y : Nat) : (bunpin s y).lh = s.lh := rfl

theorem bwrite_start (s : LogSt) (y : Nat) : (bwrite s y).start = s.start := rfl

theorem bwrite_size (s : LogSt) (y : Nat) : (bwrite s y).size = s.size := rfl

theorem bwrite_outstanding (s : LogSt) (y : Nat) : (bwrite s y).outstanding = s.outstanding := rfl

theorem bwrite_committing (s : LogSt) (y : Nat) : (bwrite s y).committing = s.committing := rfl

theorem bwrite_lh (s : LogSt) (y : Nat) : (bwrite s y).lh = s.lh := rfl

theorem cacheWrite_start (s : LogSt) (y : Nat) (v : BVal) : (cacheWrite s y v).start = s.start := rfl

theorem cacheWrite_size (s : LogSt) (y : Nat) (v : BVal) : (cacheWrite s y v).size = s.size := rfl

theorem cacheWrite_outstanding (s : LogSt) (y : Nat) (v : BVal) : (cacheWrite s y v).outstanding = s.outstanding := rfl

theorem cacheWrite_committing (s : LogSt) (y : Nat) (v : BVal) : (cacheWrite s y v).committing = s.committing := rfl

theorem cacheWrite_lh (s : LogSt) (y : Nat) (v : BVal) : (cacheWrite s y v).lh = s.lh := rfl

/-- Pointwise description of one write_log iteration: the home block's
current data is written (and recorded) at log slot start+tail+1; pins
are unchanged (the bread references are both released). -/
theorem write_logStep_spec (start tail b : Nat) (s : LogSt) :
    (write_logStep start tail b s).start = s.start ∧
    (write_logStep start tail b s).size = s.size ∧
    (write_logStep start tail b s).outstanding = s.outstanding ∧
    (write_logStep start tail b s).committing = s.committing ∧
    (write_logStep start tail b s).lh = s.lh ∧
    (∀ x, (write_logStep start tail b s).pins x = s.pins x) ∧
    (write_logStep start tail b s).writes
      = s.writes ++ [(start + tail + 1, breadVal s b)] ∧
    (∀ x, (write_logStep start tail b s).disk x
      = if x = start + tail + 1 then breadVal s b else s.disk x) ∧
    (∀ x, breadVal (write_logStep start tail b s) x
      = if x = start + tail + 1 then breadVal s b else breadVal s x) := by
  refine ⟨?_, ?_, ?_, ?_, ?_, ?_, ?_, ?_, ?_⟩
  · simp only [write_logStep, brelse_start, bwrite_start, cacheWrite_start,
      bread_start]
  · simp only [write_logStep, brelse_size, bwrite_size, cacheWrite_size,
      bread_size]
  · simp only [write_logStep, brelse_outstanding, bwrite_outstanding,
      cacheWrite_outstanding, bread_outstanding]
  · simp only [write_logStep, brelse_committing, bwrite_committing,
      cacheWrite_committing, bread_committing]
  · simp only [write_logStep, brelse_lh, bwrite_lh, cacheWrite_lh, bread_lh]
  · intro x
    simp only [write_logStep, brelse_pins, bwrite_pins, cacheWrite_pins,
      bread_pins, updF]
    rcases eq_or_ne b (start + tail + 1) with hb | hb
    · subst hb
      by_cases hx : x = start + tail + 1
      · subst hx
        simp
        try omega
      · simp [hx]
        try omega
    · by_cases hxL : x = start + tail + 1
      · subst hxL
        simp [hb, Ne.symm hb]
        try omega
      · by_cases hxb : x = b
        · subst hxb
          simp [hb, hxL, Ne.symm hb]
          try omega
        · simp [hxL, hxb]
          try omega
  · simp only [write_logStep, brelse_writes, bwrite_writes, cacheWrite_writes,
      bread_writes, breadVal_cacheWrite, breadVal_bread]
    simp
  · intro x
    simp only [write_logStep, brelse_disk, bwrite_disk, cacheWrite_disk,
      bread_disk, breadVal_cacheWrite, breadVal_bread, updF]
    split_ifs <;> simp_all
  · intro x
    simp only [write_logStep, breadVal_brelse, breadVal_bwrite,
      breadVal_cacheWrite, breadVal_bread]

/-- Pointwise description of one install_trans iteration (not
recovering): the log slot's data is written (and recorded) at the home
block b, whose buffer loses one reference (the bunpin). -/
theorem install_transStep_spec (start tail b : Nat) (s : LogSt) :
    (install_transStep start tail b false s).start = s.start ∧
    (install_transStep start tail b false s).size = s.size ∧
    (install_transStep start tail b false s).outstanding = s.outstanding ∧
    (install_transStep start tail b false s).committing = s.committing ∧
    (install_transStep start tail b false s).lh = s.lh ∧
    (∀ x, (install_transStep start tail b false s).pins x
      = s.pins x - (if x = b then 1 else 0)) ∧
    (install_transStep start tail b false s).writes
      = s.writes ++ [(b, breadVal s (start + tail + 1))] ∧
    (∀ x, (install_transStep start tail b false s).disk x
      = if x = b then breadVal s (start + tail + 1) else s.disk x) ∧
    (∀ x, breadVal (install_transStep start tail b false s) x
      = if x = b then breadVal s (start + tail + 1) else breadVal s x) := by
  refine ⟨?_, ?_, ?_, ?_, ?_, ?_, ?_, ?_, ?_⟩
  · simp only [install_transStep, Bool.false_eq_true, if_false, brelse_start,
      bunpin_start, bwrite_start, cacheWrite_start, bread_start]
  · simp only [install_transStep, Bool.false_eq_true, if_false, brelse_size,
      bunpin_size, bwrite_size, cacheWrite_size, bread_size]
  · simp only [install_transStep, Bool.false_eq_true, if_false,
      brelse_outstanding, bunpin_outstanding, bwrite_outstanding,
      cacheWrite_outstanding, bread_outstanding]
  · simp only [install_transStep, Bool.false_eq_true, if_false,
      brelse_committing, bunpin_committing, bwrite_committing,
      cacheWrite_committing, bread_committing]
  · simp only [install_transStep, Bool.false_eq_true, if_false, brelse_lh,
      bunpin_lh, bwrite_lh, cacheWrite_lh, bread_lh]
  · intro x
    simp only [install_transStep, Bool.false_eq_true, if_false, brelse_pins,
      bunpin_pins, bwrite_pins, cacheWrite_pins, bread_pins, updF]
    rcases eq_or_ne b (start + tail + 1) with hb | hb
    · subst hb
      by_cases hx : x = start + tail + 1
      · subst hx
        simp
        try omega
      · simp [hx]
        try omega
    · by_cases hxL : x = start + tail + 1
      · subst hxL
        simp [hb, Ne.symm hb]
        try omega
      · by_cases hxb : x = b
        · subst hxb
          simp [hb, hxL, Ne.symm hb]
          try omega
        · simp [hxL, hxb]
          try omega
  · simp [install_transStep, brelse_writes, bunpin_writes, bwrite_writes,
      cacheWrite_writes, bread_writes, breadVal_cacheWrite, breadVal_bread]
  · intro x
    simp only [install_transStep, Bool.false_eq_true, if_false, brelse_disk,
      bunpin_disk, bwrite_disk, cacheWrite_disk, bread_disk,
      breadVal_cacheWrite, breadVal_bread, updF]
    split_ifs <;> simp_all
  · intro x
    simp only [install_transStep, Bool.false_eq_true, if_false,
      breadVal_brelse, breadVal_bunpin, breadVal_bwrite, breadVal_cacheWrite,
      breadVal_bread]

/-- Pointwise description of write_head: the current in-memory header is
written (and recorded) at the header block s.start. -/
theorem write_head_spec (s : LogSt) :
    (write_head s).start = s.start ∧
    (write_head s).size = s.size ∧
    (write_head s).outstanding = s.outstanding ∧
    (write_head s).committing = s.committing ∧
    (write_head s).lh = s.lh ∧
    (∀ x, (write_head s).pins x = s.pins x) ∧
    (write_head s).writes = s.writes ++ [(s.start, BVal.hdr s.lh)] ∧
    (∀ x, (write_head s).disk x
      = if x = s.start then BVal.hdr s.lh else s.disk x) ∧
    (∀ x, breadVal (write_head s) x
      = if x = s.start then BVal.hdr s.lh else breadVal s x) := by
  refine ⟨?_, ?_, ?_, ?_, ?_, ?_, ?_, ?_, ?_⟩
  · simp only [write_head, brelse_start, bwrite_start, cacheWrite_start,
      bread_start]
  · simp only [write_head, brelse_size, bwrite_size, cacheWrite_size,
      bread_size]
  · simp only [write_head, brelse_outstanding, bwrite_outstanding,
      cacheWrite_outstanding, bread_outstanding]
  · simp only [write_head, brelse_committing, bwrite_committing,
      cacheWrite_committing, bread_committing]
  · simp only [write_head, brelse_lh, bwrite_lh, cacheWrite_lh, bread_lh]
  · intro x
    simp only [write_head, brelse_pins, bwrite_pins, cacheWrite_pins,
      bread_pins, updF]
    by_cases hx : x = s.start
    · subst hx
      simp
      try omega
    · simp [hx]
      try omega
  · have hlh : (cacheWrite (bread s s.start) s.start (BVal.hdr s.lh)).lh = s.lh := rfl
    simp [write_head, brelse_writes, bwrite_writes, cacheWrite_writes,
      bread_writes, breadVal_cacheWrite, hlh]
  · intro x
    simp only [write_head, brelse_disk, bwrite_disk, cacheWrite_disk,
      bread_disk, breadVal_cacheWrite, updF]
    split_ifs <;> simp_all
  · intro x
    simp only [write_head, breadVal_brelse, breadVal_bwrite,
      breadVal_cacheWrite, breadVal_bread]

/-- Congruence for List.mapIdx from pointwise equality at in-range
indices and members. -/
theorem mapIdx_congr_mem {α β : Type} :
    ∀ (l : List α) (f g : Nat → α → β),
      (∀ i a, i < l.length → a ∈ l → f i a = g i a) →
      l.mapIdx f = l.mapIdx g := by
  intro l
  induction l with
  | nil => intro f g h; rfl
  | cons a t ih =>
    intro f g h
    simp only [List.mapIdx_cons]
    rw [h 0 a (by simp) (List.mem_cons_self a t),
      ih (fun i x => f (i+1) x) (fun i x => g (i+1) x)
        (fun i x hi hx => h (i+1) x (by simpa using hi)
          (List.mem_cons_of_mem a hx))]

/-- The write_log loop writes each logged block's current data to its
log slot, in order, and changes nothing else: pins are unchanged, blocks
below the slot range and blocks above the log area keep their disk and
readable data, and afterwards each log slot i reads as the data of the
i-th logged block. -/
theorem write_logGo_spec (start : Nat) :
    ∀ (blocks : List Nat) (tail : Nat) (s : LogSt),
      (∀ b ∈ blocks, start + LOGSIZE < b) →
      tail + blocks.length ≤ LOGSIZE →
      (write_logGo start tail blocks s).start = s.start ∧
      (write_logGo start tail blocks s).size = s.size ∧
      (write_logGo start tail blocks s).outstanding = s.outstanding ∧
      (write_logGo start tail blocks s).committing = s.committing ∧
      (write_logGo start tail blocks s).lh = s.lh ∧
      (∀ x, (write_logGo start tail blocks s).pins x = s.pins x) ∧
      (write_logGo start tail blocks s).writes = s.writes
        ++ (blocks.mapIdx fun i bb => (start + tail + 1 + i, breadVal s bb)) ∧
      (∀ x, x < start + tail + 1 ∨ start + LOGSIZE < x →
        (write_logGo start tail blocks s).disk x = s.disk x ∧
        breadVal (write_logGo start tail blocks s) x = breadVal s x) ∧
      (∀ i, (hi : i < blocks.length) →
        breadVal (write_logGo start tail blocks s) (start + tail + 1 + i)
          = breadVal s (blocks.get ⟨i, hi⟩)) := by
  intro blocks
  induction blocks with
  | nil =>
    intro tail s hd hlen
    refine ⟨rfl, rfl, rfl, rfl, rfl, fun x => rfl, by simp [write_logGo],
      fun x hx => ⟨rfl, rfl⟩, fun i hi => absurd hi (by simp)⟩
  | cons b rest ih =>
    intro tail s hd hlen
    obtain ⟨f1, f2, f3, f4, f5, fpins, fwrites, fdisk, fbv⟩ :=
      write_logStep_spec start tail b s
    have hbL : start + LOGSIZE < b := hd b (List.mem_cons_self b rest)
    have hd2 : ∀ x ∈ rest, start + LOGSIZE < x :=
      fun x hx => hd x (List.mem_cons_of_mem b hx)
    have hlen2 : (tail + 1) + rest.length ≤ LOGSIZE := by
      simp only [List.length_cons] at hlen
      omega
    have htail1 : tail + 1 ≤ LOGSIZE := by
      simp only [List.length_cons] at hlen
      omega
    obtain ⟨g1, g2, g3, g4, g5, gpins, gwrites, gdisk, gbv⟩ :=
      ih (tail + 1) (write_logStep start tail b s) hd2 hlen2
    have hstep : write_logGo start tail (b :: rest) s
        = write_logGo start (tail + 1) rest (write_logStep start tail b s) := rfl
    rw [hstep]
    refine ⟨g1.trans f1, g2.trans f2, g3.trans f3, g4.trans f4, g5.trans f5,
      ?_, ?_, ?_, ?_⟩
    · intro x
      rw [gpins x, fpins x]
    · rw [gwrites, fwrites, List.mapIdx_cons, List.append_assoc]
      congr 1
      rw [List.singleton_append]
      congr 1
      refine mapIdx_congr_mem rest _ _ ?_
      intro i bb hilen hbb
      have hne : bb ≠ start + tail + 1 := by
        have := hd2 bb hbb
        omega
      rw [fbv bb, if_neg hne]
      have harith : start + (tail + 1) + 1 + i = start + tail + 1 + (i + 1) := by
        omega
      rw [harith]
    · intro x hx
      have hx2 : x < start + (tail + 1) + 1 ∨ start + LOGSIZE < x := by
        rcases hx with h | h
        · exact Or.inl (by omega)
        · exact Or.inr h
      have hxb : x ≠ start + tail + 1 := by
        rcases hx with h | h
        · omega
        · omega
      obtain ⟨gd, gb⟩ := gdisk x hx2
      constructor
      · rw [gd, fdisk x, if_neg hxb]
      · rw [gb, fbv x, if_neg hxb]
    · intro i hi
      cases i with
      | zero =>
        have hL : start + tail + 1 + 0 < start + (tail + 1) + 1 := by omega
        obtain ⟨gd, gb⟩ := gdisk (start + tail + 1 + 0) (Or.inl hL)
        rw [gb, show start + tail + 1 + 0 = start + tail + 1 from by omega,
          fbv (start + tail + 1), if_pos rfl]
        rfl
      | succ i =>
        have hi2 : i < rest.length := by
          simp only [List.length_cons] at hi
          omega
        have harith : start + tail + 1 + (i + 1) = start + (tail + 1) + 1 + i := by
          omega
        rw [harith, gbv i hi2]
        have hmem : rest.get ⟨i, hi2⟩ ∈ rest := List.get_mem rest i hi2
        have hne : rest.get ⟨i, hi2⟩ ≠ start + tail + 1 := by
          have := hd2 _ hmem
          omega
        rw [fbv _, if_neg hne]
        rfl

/-- The install_trans loop (not recovering) writes, for each logged
block in order, the corresponding log slot's data to the block's home
location, and drops one buffer reference per occurrence; blocks outside
the logged set keep their disk and readable data, and with distinct
logged blocks each home location ends up holding its log slot's data. -/
theorem install_transGo_spec (start : Nat) :
    ∀ (blocks : List Nat) (tail : Nat) (s : LogSt),
      (∀ b ∈ blocks, start + LOGSIZE < b) →
      tail + blocks.length ≤ LOGSIZE →
      (install_transGo start false tail blocks s).start = s.start ∧
      (install_transGo start false tail blocks s).size = s.size ∧
      (install_transGo start false tail blocks s).outstanding = s.outstanding ∧
      (install_transGo start false tail blocks s).committing = s.committing ∧
      (install_transGo start false tail blocks s).lh = s.lh ∧
      (∀ x, (install_transGo start false tail blocks s).pins x
        = s.pins x - (blocks.count x : Int)) ∧
      (install_transGo start false tail blocks s).writes = s.writes
        ++ (blocks.mapIdx fun i bb => (bb, breadVal s (start + tail + 1 + i))) ∧
      (∀ x, x ∉ blocks →
        (install_transGo start false tail blocks s).disk x = s.disk x ∧
        breadVal (install_transGo start false tail blocks s) x = breadVal s x) ∧
      (blocks.Nodup → ∀ i, (hi : i < blocks.length) →
        (install_transGo start false tail blocks s).disk (blocks.get ⟨i, hi⟩)
          = breadVal s (start + tail + 1 + i)) := by
  intro blocks
  induction blocks with
  | nil =>
    intro tail s hd hlen
    refine ⟨rfl, rfl, rfl, rfl, rfl, fun x => by simp [install_transGo],
      by simp [install_transGo], fun x hx => ⟨rfl, rfl⟩,
      fun hnd i hi => absurd hi (by simp)⟩
  | cons b rest ih =>
    intro tail s hd hlen
    obtain ⟨f1, f2, f3, f4, f5, fpins, fwrites, fdisk, fbv⟩ :=
      install_transStep_spec start tail b s
    have hbL : start + LOGSIZE < b := hd b (List.mem_cons_self b rest)
    have hd2 : ∀ x ∈ rest, start + LOGSIZE < x :=
      fun x hx => hd x (List.mem_cons_of_mem b hx)
    have hlen2 : (tail + 1) + rest.length ≤ LOGSIZE := by
      simp only [List.length_cons] at hlen
      omega
    obtain ⟨g1, g2, g3, g4, g5, gpins, gwrites, gdisk, ghome⟩ :=
      ih (tail + 1) (install_transStep start tail b false s) hd2 hlen2
    have hstep : install_transGo start false tail (b :: rest) s
        = install_transGo start false (tail + 1) rest
            (install_transStep start tail b false s) := rfl
    rw [hstep]
    refine ⟨g1.trans f1, g2.trans f2, g3.trans f3, g4.trans f4, g5.trans f5,
      ?_, ?_, ?_, ?_⟩
    · intro x
      rw [gpins x, fpins x]
      by_cases h : x = b
      · subst h
        rw [List.count_cons_self]
        push_cast
        simp
        omega
      · rw [List.count_cons_of_ne h]
        simp [h]
    · rw [gwrites, fwrites, List.mapIdx_cons, List.append_assoc,
        List.singleton_append]
      congr 2
      refine mapIdx_congr_mem rest _ _ ?_
      intro i bb hilen hbb
      have hpos : start + (tail + 1) + 1 + i ≤ start + LOGSIZE := by
        omega
      have hne : start + (tail + 1) + 1 + i ≠ b := by omega
      rw [fbv _, if_neg hne]
      have harith : start + (tail + 1) + 1 + i = start + tail + 1 + (i + 1) := by
        omega
      rw [harith]
    · intro x hx
      have hxrest : x ∉ rest := fun h => hx (List.mem_cons_of_mem b h)
      have hxb : x ≠ b := fun h => hx (h ▸ List.mem_cons_self b rest)
      obtain ⟨gd, gb⟩ := gdisk x hxrest
      constructor
      · rw [gd, fdisk x, if_neg hxb]
      · rw [gb, fbv x, if_neg hxb]
    · intro hnd i hi
      have hbrest : b ∉ rest := by
        rw [List.nodup_cons] at hnd
        exact hnd.1
      have hndrest : rest.Nodup := by
        rw [List.nodup_cons] at hnd
        exact hnd.2
      cases i with
      | zero =>
        have hget : (b :: rest).get ⟨0, hi⟩ = b := rfl
        rw [hget]
        obtain ⟨gd, _⟩ := gdisk b hbrest
        rw [gd, fdisk b, if_pos rfl]
      | succ i =>
        have hi2 : i < rest.length := by
          simp only [List.length_cons] at hi
          omega
        have hget : (b :: rest).get ⟨i + 1, hi⟩ = rest.get ⟨i, hi2⟩ := rfl
        rw [hget, ghome hndrest i hi2]
        have hpos : start + (tail + 1) + 1 + i ≤ start + LOGSIZE := by
          omega
        have hne : start + (tail + 1) + 1 + i ≠ b := by omega
        rw [fbv _, if_neg hne]
        rw [show start + tail + 1 + (i + 1) = start + (tail + 1) + 1 + i from by omega]

/-- Congruence for List.mapIdx from agreement at each index on the
element actually at that index. -/
theorem mapIdx_congr_get {α β : Type} :
    ∀ (l : List α) (f g : Nat → α → β),
      (∀ i, (hi : i < l.length) → f i (l.get ⟨i, hi⟩) = g i (l.get ⟨i, hi⟩)) →
      l.mapIdx f = l.mapIdx g := by
  intro l
  induction l with
  | nil => intro f g h; rfl
  | cons a t ih =>
    intro f g h
    simp only [List.mapIdx_cons]
    have h0 : f 0 a = g 0 a := h 0 (by simp)
    rw [h0,
      ih (fun i x => f (i+1) x) (fun i x => g (i+1) x)
        (fun i hi => h (i+1) (by simpa using hi))]

/-- C4: with a non-empty in-memory header, commit (i) writes each logged
buffer's data to its log-region block, (ii) writes the header block
recording the logged block numbers, (iii) writes each logged block's
data to its home location and unpins the buffer, (iv) clears n in
memory, and (v) writes the empty header -- in exactly that order of disk
writes, leaving each home location holding the logged data; with an
empty header commit does nothing (in particular, no disk writes). -/
theorem commit_spec :
    (∀ s : LogSt, s.lh = [] → commit s = s) ∧
    (∀ s : LogSt, s.lh ≠ [] → s.lh.length ≤ LOGSIZE →
      (∀ b ∈ s.lh, s.start + LOGSIZE < b) →
      (commit s).writes = s.writes
        ++ (s.lh.mapIdx fun i b => (s.start + 1 + i, breadVal s b))
        ++ [(s.start, BVal.hdr s.lh)]
        ++ (s.lh.mapIdx fun i b => (b, breadVal s b))
        ++ [(s.start, BVal.hdr [])] ∧
      (commit s).lh = [] ∧
      (∀ x, (commit s).pins x = s.pins x - (s.lh.count x : Int)) ∧
      (commit s).disk s.start = BVal.hdr [] ∧
      (s.lh.Nodup → ∀ i, (hi : i < s.lh.length) →
        (commit s).disk (s.lh.get ⟨i, hi⟩) = breadVal s (s.lh.get ⟨i, hi⟩))) := by
  constructor
  · intro s h
    simp [commit, h]
  · intro s hne hlen hd
    have hpos : s.lh.length > 0 := List.length_pos.mpr hne
    have hlen0 : 0 + s.lh.length ≤ LOGSIZE := by omega
    -- the write_log stage
    obtain ⟨w1, w2, w3, w4, w5, wpins, wwrites, wpres, wlogv⟩ :=
      write_logGo_spec s.start s.lh 0 s hd hlen0
    set s1 := write_logGo s.start 0 s.lh s with hs1
    -- the first write_head stage
    obtain ⟨h1, h2, h3, h4, h5, hpins, hwrites, hdisk, hbv⟩ := write_head_spec s1
    set s2 := write_head s1 with hs2
    have h2start : s2.start = s.start := h1.trans w1
    have h2lh : s2.lh = s.lh := h5.trans w5
    -- the install stage
    obtain ⟨i1, i2, i3, i4, i5, ipins, iwrites, ipres, ihome⟩ :=
      install_transGo_spec s.start s.lh 0 s2 hd hlen0
    set s3 := install_transGo s.start false 0 s.lh s2 with hs3
    have hinst : install_trans false s2 = s3 := by
      rw [install_trans, h2start, h2lh]
    -- the final write_head stage on the cleared header
    obtain ⟨f1, f2, f3, f4, f5, fpins, fwrites, fdisk, fbv⟩ :=
      write_head_spec { s3 with lh := [] }
    have hwl : write_log s = s1 := rfl
    have hcommit : commit s = write_head { s3 with lh := [] } := by
      simp only [commit]
      rw [if_pos hpos, hwl, ← hs2, hinst]
    have h4start : ({ s3 with lh := [] } : LogSt).start = s.start := by
      show s3.start = s.start
      rw [i1, h2start]
    constructor
    · -- the write trace
      rw [hcommit, fwrites, h4start]
      show (s3.writes ++ [(s.start, BVal.hdr [])]) = _
      rw [iwrites, hwrites, wwrites, w1, w5]
      have hlog : (s.lh.mapIdx fun i b => (s.start + 0 + 1 + i, breadVal s b))
          = s.lh.mapIdx fun i b => (s.start + 1 + i, breadVal s b) := by
        refine mapIdx_congr_get s.lh _ _ ?_
        intro i hi
        rw [show s.start + 0 + 1 + i = s.start + 1 + i from by omega]
      have hins : (s.lh.mapIdx fun i b => (b, breadVal s2 (s.start + 0 + 1 + i)))
          = s.lh.mapIdx fun i b => (b, breadVal s b) := by
        refine mapIdx_congr_get s.lh _ _ ?_
        intro i hi
        have hneq : s.start + 0 + 1 + i ≠ s1.start := by
          rw [w1]
          omega
        rw [hbv, if_neg hneq, wlogv i hi]
      rw [hlog, hins]
    constructor
    · rw [hcommit, f5]
    constructor
    · intro x
      rw [hcommit, fpins x]
      show s3.pins x = _
      rw [ipins x, hpins x, wpins x]
    constructor
    · rw [hcommit, fdisk s.start, h4start, if_pos rfl]
    · intro hnd i hi
      have hmem : s.lh.get ⟨i, hi⟩ ∈ s.lh := List.get_mem s.lh i hi
      have hgt : s.start + LOGSIZE < s.lh.get ⟨i, hi⟩ := hd _ hmem
      have hneq : s.lh.get ⟨i, hi⟩ ≠ ({ s3 with lh := [] } : LogSt).start := by
        rw [h4start]
        omega
      rw [hcommit, fdisk _, if_neg hneq]
      show s3.disk _ = _
      rw [ihome hnd i hi]
      have hneq2 : s.start + 0 + 1 + i ≠ s1.start := by
        rw [w1]
        omega
      rw [hbv, if_neg hneq2, wlogv i hi]

/-- C5: one pass of the begin_op wait loop sleeps exactly while
committing is set or the worst-case footprint
`log.lh.n + (log.outstanding+1)*MAXOPBLOCKS` exceeds LOGSIZE; otherwise
it increments outstanding and proceeds, changing nothing else. -/
theorem begin_op_spec (s : LogSt) :
    (begin_opStep s = BeginRes.sleeps ↔
      s.committing = true ∨
      (s.lh.length : Int) + (s.outstanding + 1) * (MAXOPBLOCKS : Int)
        > (LOGSIZE : Int)) ∧
    (∀ s1, begin_opStep s = BeginRes.proceeds s1 →
      s1 = { s with outstanding := s.outstanding + 1 }) := by
  constructor
  · simp only [begin_opStep]
    split_ifs with h1 h2
    · simp [h1]
    · simp [h1, h2]
    · simp [h1, h2]
  · intro s1
    simp only [begin_opStep]
    split_ifs with h1 h2
    · intro h
      simp at h
    · intro h
      simp at h
    · intro h
      injection h with h
      exact h.symm

/-- A concrete unblocked log state. -/
def L5 : LogSt :=
  { start := 2, size := 32, outstanding := 0, committing := false,
    lh := [], cache := fun _ => none, disk := fun _ => BVal.data 0,
    pins := fun _ => 0, writes := [] }

/-- Witness for C5: a committing state sleeps, a state whose worst-case
footprint exceeds LOGSIZE sleeps, and the unblocked state `L5` proceeds
by taking an outstanding slot. -/
theorem begin_op_spec_witness :
    begin_opStep { L5 with committing := true } = BeginRes.sleeps ∧
    begin_opStep { L5 with outstanding := 3 } = BeginRes.sleeps ∧
    { L5 with outstanding := L5.outstanding + 1 }
      = { L5 with outstanding := L5.outstanding + 1 } := by
  refine ⟨?_, ?_, ?_⟩
  · exact (begin_op_spec { L5 with committing := true }).1.mpr (Or.inl rfl)
  · exact (begin_op_spec { L5 with outstanding := 3 }).1.mpr
      (Or.inr (by decide))
  · exact (begin_op_spec L5).2 { L5 with outstanding := L5.outstanding + 1 } rfl

/-- C6: log_write absorbs repeated writes of the same block.  A block
number already in the header leaves the state exactly unchanged (no new
header entry, no pin); a new block number is appended to the header and
its buffer pinned, after which the header holds exactly one entry for it
and a second log_write of the same buffer is a no-op. -/
theorem log_write_absorbs :
    (∀ (s : LogSt) (bno : Nat), s.lh.length < LOGSIZE →
       s.lh.length < s.size - 1 → 1 ≤ s.outstanding → bno ∈ s.lh →
       log_write s bno = some s) ∧
    (∀ (s : LogSt) (bno : Nat), s.lh.length + 1 < LOGSIZE →
       s.lh.length + 1 < s.size - 1 → 1 ≤ s.outstanding → bno ∉ s.lh →
       ∃ s1, log_write s bno = some s1 ∧
         s1.lh = s.lh ++ [bno] ∧
         s1.pins bno = s.pins bno + 1 ∧
         (∀ x, x ≠ bno → s1.pins x = s.pins x) ∧
         s1.lh.count bno = 1 ∧
         log_write s1 bno = some s1) := by
  constructor
  · intro s bno hl hsz hout hmem
    rw [log_write, if_neg (by omega), if_neg (by omega), if_pos hmem]
  · intro s bno hl hsz hout hmem
    refine ⟨bpin { s with lh := s.lh ++ [bno] } bno,
      by rw [log_write, if_neg (by omega), if_neg (by omega), if_neg hmem],
      rfl, ?_, ?_, ?_, ?_⟩
    · show updF s.pins bno (s.pins bno + 1) bno = s.pins bno + 1
      simp [updF]
    · intro x hx
      show updF s.pins bno (s.pins bno + 1) x = s.pins x
      simp [updF, hx]
    · show (s.lh ++ [bno]).count bno = 1
      rw [List.count_append, List.count_eq_zero.mpr hmem]
      simp
    · have hmem2 : bno ∈ (bpin { s with lh := s.lh ++ [bno] } bno).lh := by
        show bno ∈ s.lh ++ [bno]
        simp
      have hlen2 : (bpin { s with lh := s.lh ++ [bno] } bno).lh.length
          = s.lh.length + 1 := by
        show (s.lh ++ [bno]).length = s.lh.length + 1
        simp
      have hsz2 : (bpin { s with lh := s.lh ++ [bno] } bno).size = s.size := rfl
      have hout2 : (bpin { s with lh := s.lh ++ [bno] } bno).outstanding
          = s.outstanding := rfl
      rw [log_write, if_neg (by rw [hlen2, hsz2]; omega),
        if_neg (by rw [hout2]; omega), if_pos hmem2]

/-- A concrete log state inside a transaction with an empty header. -/
def L6 : LogSt :=
  { start := 2, size := 32, outstanding := 1, committing := false,
    lh := [], cache := fun _ => none, disk := fun _ => BVal.data 0,
    pins := fun _ => 0, writes := [] }

/-- Witness for C6 at the concrete state `L6` and block 100: the first
log_write appends and pins, the second changes nothing. -/
theorem log_write_absorbs_witness :
    (∃ s1, log_write L6 100 = some s1 ∧
      s1.lh = L6.lh ++ [100] ∧
      s1.pins 100 = L6.pins 100 + 1 ∧
      (∀ x, x ≠ 100 → s1.pins x = L6.pins x) ∧
      s1.lh.count 100 = 1 ∧
      log_write s1 100 = some s1) ∧
    log_write { L6 with lh := [100] } 100 = some { L6 with lh := [100] } := by
  constructor
  · exact log_write_absorbs.2 L6 100 (by decide) (by decide) (by decide)
      (by decide)
  · exact log_write_absorbs.1 { L6 with lh := [100] } 100 (by decide)
      (by decide) (by decide) (by decide)

/-- A concrete committing-state for exercising commit: two logged blocks
100 and 200 whose cached data differ from disk, both pinned once. -/
def LC4 : LogSt :=
  { start := 2, size := 32, outstanding := 0, committing := true,
    lh := [100, 200],
    cache := fun b => if b = 100 then some (BVal.data 10)
      else if b = 200 then some (BVal.data 20) else none,
    disk := fun _ => BVal.data 0,
    pins := fun b => if b = 100 ∨ b = 200 then 1 else 0,
    writes := [] }

/-- Witness for C4 at the concrete state `LC4`: commit emits exactly the
log writes, the header, the home installs and the empty header, clears
the in-memory header, unpins both buffers, truncates the on-disk header
and installs the logged data at the home locations; and commit of an
emptied header does nothing. -/
theorem commit_spec_witness :
    (commit LC4).writes =
      [(3, BVal.data 10), (4, BVal.data 20), (2, BVal.hdr [100, 200]),
       (100, BVal.data 10), (200, BVal.data 20), (2, BVal.hdr [])] ∧
    (commit LC4).lh = [] ∧
    (commit LC4).pins 100 = 0 ∧ (commit LC4).pins 200 = 0 ∧
    (commit LC4).disk 2 = BVal.hdr [] ∧
    (commit LC4).disk 100 = BVal.data 10 ∧
    commit { LC4 with lh := [] } = { LC4 with lh := [] } := by
  have h := commit_spec.2 LC4 (by decide) (by decide) (by decide)
  refine ⟨?_, h.2.1, ?_, ?_, h.2.2.2.1, ?_, ?_⟩
  · rw [h.1]
    rfl
  · rw [h.2.2.1 100]
    decide
  · rw [h.2.2.1 200]
    decide
  · have h5 := h.2.2.2.2 (by decide) 0 (by decide)
    exact h5.trans (by decide)
  · exact commit_spec.1 { LC4 with lh := [] } rfl


/-- A block-cache buffer as bget sees it (kernel/buf.h): device, block
number, reference count, valid flag, and the last-use tick stamped by
brelse for the LRU choice. -/
structure Buf where
  dev : Nat
  blockno : Nat
  refcnt : Nat
  valid : Bool
  lastuse : Nat
deriving DecidableEq

/-- The hash-chain scan of bget: position and record of the first buffer
in the chain matching (dev, blockno). -/
def findBufIdx (dev blockno : Nat) : List Buf → Option (Nat × Buf)
  | [] => none
  | b :: rest =>
    if b.dev = dev ∧ b.blockno = blockno then some (0, b)
    else (findBufIdx dev blockno rest).map (fun q => (q.1 + 1, q.2))

/-- One bucket's part of bget's eviction scan: walk the chain keeping
the best candidate (bucket, position, last-use tick); a buffer improves
on the current best when its refcnt is 0 and its last-use tick is
strictly smaller (or there is no best yet). -/
def scanChain (i : Nat) : List Buf → Nat → Option (Nat × Nat × Nat) →
    Option (Nat × Nat × Nat)
  | [], _, best => best
  | b :: rest, pos, best =>
    match best with
    | none =>
      if b.refcnt = 0 then scanChain i rest (pos + 1) (some (i, pos, b.lastuse))
      else scanChain i rest (pos + 1) none
    | some (bi, bp, blu) =>
      if b.refcnt = 0 ∧ b.lastuse < blu then
        scanChain i rest (pos + 1) (some (i, pos, b.lastuse))
      else scanChain i rest (pos + 1) (some (bi, bp, blu))

/-- The eviction scan of bget over all buckets in index order. -/
def findVictim (bc : Nat → List Buf) : Option (Nat × Nat × Nat) :=
  (List.range NBUFMAP_BUCKET).foldl (fun acc i => scanChain i (bc i) 0 acc) none

/-- bget from kernel/bio.c.  Scan the key bucket; on a hit bump the
refcount and return the buffer.  On a miss, (under the eviction lock)
re-scan the bucket, then scan all buckets for the least-recently-used
buffer with refcnt 0; panic ("bget: no buffers", modelled as none) when
there is none; otherwise move the chosen buffer to the key bucket if it
is elsewhere, and reinitialize it with the requested identity, refcnt 1
and valid 0. -/
def bget (bc : Nat → List Buf) (dev blockno : Nat) :
    Option (Buf × (Nat → List Buf)) :=
  let key := BUFMAP_HASH dev blockno
  match findBufIdx dev blockno (bc key) with
  | some (p, b) =>
    let nb : Buf := { b with refcnt := b.refcnt + 1 }
    some (nb, updF bc key ((bc key).set p nb))
  | none =>
    match findBufIdx dev blockno (bc key) with
    | some (p, b) =>
      let nb : Buf := { b with refcnt := b.refcnt + 1 }
      some (nb, updF bc key ((bc key).set p nb))
    | none =>
      match findVictim bc with
      | none => none
      | some (i, p, _) =>
        match (bc i)[p]? with
        | none => none
        | some b =>
          let nb : Buf := { dev := dev, blockno := blockno, refcnt := 1,
                            valid := false, lastuse := b.lastuse }
          if i ≠ key then
            let bc1 := updF bc i ((bc i).eraseIdx p)
            some (nb, updF bc1 key (nb :: bc1 key))
          else
            some (nb, updF bc key ((bc key).set p nb))

/-- A hit of the chain scan matches the requested identity and points
into the chain. -/
theorem findBufIdx_hit (dev blockno : Nat) :
    ∀ (l : List Buf) (p : Nat) (b : Buf),
      findBufIdx dev blockno l = some (p, b) →
      b.dev = dev ∧ b.blockno = blockno ∧ l[p]? = some b := by
  intro l
  induction l with
  | nil => intro p b h; simp [findBufIdx] at h
  | cons a rest ih =>
    intro p b h
    rw [findBufIdx] at h
    split at h
    · next hm =>
      simp at h
      obtain ⟨hp, hb⟩ := h
      subst hp
      subst hb
      exact ⟨hm.1, hm.2, by simp⟩
    · next hm =>
      cases hf : findBufIdx dev blockno rest with
      | none => rw [hf] at h; simp at h
      | some q =>
        rw [hf] at h
        simp at h
        obtain ⟨hp, hb⟩ := h
        obtain ⟨h1, h2, h3⟩ := ih q.1 q.2 (by rw [hf])
        subst hp
        subst hb
        exact ⟨h1, h2, by simpa using h3⟩


/-- The per-bucket eviction scan returns nothing exactly when it started
with nothing and the chain has no refcnt-0 buffer. -/
theorem scanChain_none (i : Nat) :
    ∀ (l : List Buf) (pos : Nat) (best : Option (Nat × Nat × Nat)),
      scanChain i l pos best = none ↔
        best = none ∧ ∀ c ∈ l, c.refcnt ≠ 0 := by
  intro l
  induction l with
  | nil => intro pos best; simp [scanChain]
  | cons b rest ih =>
    intro pos best
    cases best with
    | none =>
      simp only [scanChain]
      by_cases hz : b.refcnt = 0
      · rw [if_pos hz, ih]
        constructor
        · rintro ⟨h, _⟩
          simp at h
        · rintro ⟨_, hall⟩
          exact absurd hz (hall b (List.mem_cons_self b rest))
      · rw [if_neg hz, ih]
        constructor
        · rintro ⟨-, hall⟩
          refine ⟨by simp, ?_⟩
          intro c hc
          rcases List.mem_cons.mp hc with rfl | hc2
          · exact hz
          · exact hall c hc2
        · rintro ⟨-, hall⟩
          exact ⟨by simp, fun c hc => hall c (List.mem_cons_of_mem b hc)⟩
    | some t =>
      obtain ⟨bi, bp, blu⟩ := t
      simp only [scanChain]
      by_cases hc : b.refcnt = 0 ∧ b.lastuse < blu
      · rw [if_pos hc, ih]
        simp
      · rw [if_neg hc, ih]
        simp

/-- What the per-bucket eviction scan returns: either the incoming best
or a refcnt-0 buffer of this chain, in either case of last-use tick no
larger than any refcnt-0 buffer of the chain and than the incoming
best's tick. -/
theorem scanChain_some (i : Nat) :
    ∀ (l : List Buf) (pos : Nat) (best : Option (Nat × Nat × Nat))
      (ri rp rlu : Nat),
      scanChain i l pos best = some (ri, rp, rlu) →
      (some (ri, rp, rlu) = best ∨
        (ri = i ∧ ∃ j, ∃ hj : j < l.length, rp = pos + j ∧
          (l.get ⟨j, hj⟩).refcnt = 0 ∧ (l.get ⟨j, hj⟩).lastuse = rlu)) ∧
      (∀ c ∈ l, c.refcnt = 0 → rlu ≤ c.lastuse) ∧
      (∀ bi bp blu, best = some (bi, bp, blu) → rlu ≤ blu) := by
  intro l
  induction l with
  | nil =>
    intro pos best ri rp rlu h
    simp only [scanChain] at h
    refine ⟨Or.inl h.symm, by simp, ?_⟩
    intro bi bp blu hb
    rw [hb] at h
    injection h with h
    cases h
    omega
  | cons b rest ih =>
    intro pos best ri rp rlu h
    cases best with
    | none =>
      simp only [scanChain] at h
      by_cases hz : b.refcnt = 0
      · rw [if_pos hz] at h
        obtain ⟨htri, hmin, hbest⟩ := ih (pos + 1) _ ri rp rlu h
        have hrb : rlu ≤ b.lastuse := hbest i pos b.lastuse rfl
        refine ⟨?_, ?_, by simp⟩
        · right
          rcases htri with heq | ⟨hri, j, hj, hrp, hz2, hlu⟩
          · injection heq with heq
            obtain ⟨h1, h2, h3⟩ : ri = i ∧ rp = pos ∧ rlu = b.lastuse := by
              refine ⟨congrArg Prod.fst heq, ?_, ?_⟩
              · exact congrArg (fun q => q.2.1) heq
              · exact congrArg (fun q => q.2.2) heq
            exact ⟨h1, 0, by simp, by omega, hz, by simp [h3]⟩
          · exact ⟨hri, j + 1, by simpa using hj, by omega, hz2, hlu⟩
        · intro c hc hcz
          rcases List.mem_cons.mp hc with rfl | hc2
          · exact hrb
          · exact hmin c hc2 hcz
      · rw [if_neg hz] at h
        obtain ⟨htri, hmin, hbest⟩ := ih (pos + 1) _ ri rp rlu h
        refine ⟨?_, ?_, by simp⟩
        · right
          rcases htri with heq | ⟨hri, j, hj, hrp, hz2, hlu⟩
          · simp at heq
          · exact ⟨hri, j + 1, by simpa using hj, by omega, hz2, hlu⟩
        · intro c hc hcz
          rcases List.mem_cons.mp hc with rfl | hc2
          · exact absurd hcz hz
          · exact hmin c hc2 hcz
    | some t =>
      obtain ⟨bi, bp, blu⟩ := t
      simp only [scanChain] at h
      by_cases hc : b.refcnt = 0 ∧ b.lastuse < blu
      · rw [if_pos hc] at h
        obtain ⟨htri, hmin, hbest⟩ := ih (pos + 1) _ ri rp rlu h
        have hrb : rlu ≤ b.lastuse := hbest i pos b.lastuse rfl
        refine ⟨?_, ?_, ?_⟩
        · right
          rcases htri with heq | ⟨hri, j, hj, hrp, hz2, hlu⟩
          · injection heq with heq
            obtain ⟨h1, h2, h3⟩ : ri = i ∧ rp = pos ∧ rlu = b.lastuse := by
              refine ⟨congrArg Prod.fst heq, ?_, ?_⟩
              · exact congrArg (fun q => q.2.1) heq
              · exact congrArg (fun q => q.2.2) heq
            exact ⟨h1, 0, by simp, by omega, hc.1, by simp [h3]⟩
          · exact ⟨hri, j + 1, by simpa using hj, by omega, hz2, hlu⟩
        · intro c hcm hcz
          rcases List.mem_cons.mp hcm with rfl | hc2
          · exact hrb
          · exact hmin c hc2 hcz
        · intro bi2 bp2 blu2 hb
          have hblu : blu2 = blu := by
            injection hb with hb
            exact (congrArg (fun q => q.2.2) hb).symm
          subst hblu
          have := hc.2
          omega
      · rw [if_neg hc] at h
        obtain ⟨htri, hmin, hbest⟩ := ih (pos + 1) _ ri rp rlu h
        have hrblu : rlu ≤ blu := hbest bi bp blu rfl
        refine ⟨?_, ?_, ?_⟩
        · rcases htri with heq | ⟨hri, j, hj, hrp, hz2, hlu⟩
          · exact Or.inl heq
          · exact Or.inr ⟨hri, j + 1, by simpa using hj, by omega, hz2, hlu⟩
        · intro c hcm hcz
          rcases List.mem_cons.mp hcm with rfl | hc2
          · have hnb : ¬ c.lastuse < blu := fun hlt => hc ⟨hcz, hlt⟩
            omega
          · exact hmin c hc2 hcz
        · intro bi2 bp2 blu2 hb
          have hblu : blu2 = blu := by
            injection hb with hb
            exact (congrArg (fun q => q.2.2) hb).symm
          subst hblu
          exact hrblu


/-- Component equations of a triple equality. -/
theorem trip_eq {a b c d e f : Nat} (h : (a, b, c) = (d, e, f)) :
    a = d ∧ b = e ∧ c = f := by
  injection h with h1 h2
  injection h2 with h2 h3
  exact ⟨h1, h2, h3⟩

/-- The whole-cache eviction fold returns nothing exactly when it
started with nothing and no scanned bucket has a refcnt-0 buffer. -/
theorem foldScan_none (bc : Nat → List Buf) :
    ∀ (js : List Nat) (best : Option (Nat × Nat × Nat)),
      js.foldl (fun acc i => scanChain i (bc i) 0 acc) best = none ↔
        best = none ∧ ∀ j ∈ js, ∀ c ∈ bc j, c.refcnt ≠ 0 := by
  intro js
  induction js with
  | nil => intro best; simp
  | cons j rest ih =>
    intro best
    rw [List.foldl_cons, ih, scanChain_none]
    constructor
    · rintro ⟨⟨h1, h2⟩, h3⟩
      refine ⟨h1, ?_⟩
      intro x hx
      rcases List.mem_cons.mp hx with rfl | hx2
      · exact h2
      · exact h3 x hx2
    · rintro ⟨h1, hall⟩
      exact ⟨⟨h1, hall j (List.mem_cons_self j rest)⟩,
        fun x hx => hall x (List.mem_cons_of_mem j hx)⟩

/-- What the whole-cache eviction fold returns: either the incoming best
or a refcnt-0 buffer at a valid position of some scanned bucket, with
last-use tick no larger than any refcnt-0 buffer of any scanned bucket
and than the incoming best's tick. -/
theorem foldScan_some (bc : Nat → List Buf) :
    ∀ (js : List Nat) (best : Option (Nat × Nat × Nat)) (ri rp rlu : Nat),
      js.foldl (fun acc i => scanChain i (bc i) 0 acc) best
        = some (ri, rp, rlu) →
      (some (ri, rp, rlu) = best ∨
        (ri ∈ js ∧ ∃ hp : rp < (bc ri).length,
          ((bc ri).get ⟨rp, hp⟩).refcnt = 0 ∧
          ((bc ri).get ⟨rp, hp⟩).lastuse = rlu)) ∧
      (∀ j ∈ js, ∀ c ∈ bc j, c.refcnt = 0 → rlu ≤ c.lastuse) ∧
      (∀ bi bp blu, best = some (bi, bp, blu) → rlu ≤ blu) := by
  intro js
  induction js with
  | nil =>
    intro best ri rp rlu h
    simp only [List.foldl_nil] at h
    refine ⟨Or.inl h.symm, by simp, ?_⟩
    intro bi bp blu hb
    rw [hb] at h
    injection h with h
    obtain ⟨-, -, h3⟩ := trip_eq h
    omega
  | cons j rest ih =>
    intro best ri rp rlu h
    rw [List.foldl_cons] at h
    cases hs : scanChain j (bc j) 0 best with
    | none =>
      rw [hs] at h
      obtain ⟨tri, hmin, hbcl⟩ := ih none ri rp rlu h
      obtain ⟨hbn, hjz⟩ := (scanChain_none j (bc j) 0 best).mp hs
      refine ⟨?_, ?_, ?_⟩
      · rcases tri with heq | hrest
        · simp at heq
        · exact Or.inr ⟨List.mem_cons_of_mem j hrest.1, hrest.2⟩
      · intro x hx c hc hz
        rcases List.mem_cons.mp hx with rfl | hx2
        · exact absurd hz (hjz c hc)
        · exact hmin x hx2 c hc hz
      · intro bi bp blu hb
        rw [hbn] at hb
        simp at hb
    | some t0 =>
      obtain ⟨t0i, t0p, t0lu⟩ := t0
      rw [hs] at h
      obtain ⟨tri, hmin, hbcl⟩ := ih _ ri rp rlu h
      obtain ⟨tri2, hmin2, hbcl2⟩ :=
        scanChain_some j (bc j) 0 best t0i t0p t0lu hs
      have hlu0 : rlu ≤ t0lu := hbcl t0i t0p t0lu rfl
      refine ⟨?_, ?_, ?_⟩
      · rcases tri with heq | hrest
        · injection heq with heq
          obtain ⟨h1, h2, h3⟩ := trip_eq heq
          subst h1
          subst h2
          subst h3
          rcases tri2 with heq2 | ⟨hji, jdx, hjdx, hp0, hz0, hlu2⟩
          · exact Or.inl heq2
          · subst hji
            refine Or.inr ⟨List.mem_cons_self ri rest, ?_⟩
            have hp2 : rp < (bc ri).length := by
              rw [hp0]
              simpa using hjdx
            refine ⟨hp2, ?_, ?_⟩
            · have : (⟨rp, hp2⟩ : Fin (bc ri).length) = ⟨jdx, hjdx⟩ := by
                apply Fin.ext
                simpa using hp0
              rw [this]
              exact hz0
            · have : (⟨rp, hp2⟩ : Fin (bc ri).length) = ⟨jdx, hjdx⟩ := by
                apply Fin.ext
                simpa using hp0
              rw [this]
              exact hlu2
        · exact Or.inr ⟨List.mem_cons_of_mem j hrest.1, hrest.2⟩
      · intro x hx c hc hz
        rcases List.mem_cons.mp hx with rfl | hx2
        · have := hmin2 c hc hz
          omega
        · exact hmin x hx2 c hc hz
      · intro bi bp blu hb
        have := hbcl2 bi bp blu hb
        omega

/-- When the eviction scan finds no candidate, every buffer in every
bucket is in use, and conversely. -/
theorem findVictim_none (bc : Nat → List Buf) :
    findVictim bc = none ↔
      ∀ j, j < NBUFMAP_BUCKET → ∀ c ∈ bc j, c.refcnt ≠ 0 := by
  rw [findVictim, foldScan_none]
  constructor
  · rintro ⟨-, hall⟩
    intro j hj
    exact hall j (List.mem_range.mpr hj)
  · intro hall
    exact ⟨rfl, fun j hj => hall j (List.mem_range.mp hj)⟩

/-- The eviction scan's candidate is a refcnt-0 buffer at a valid
position whose last-use tick is minimal among all refcnt-0 buffers of
the cache. -/
theorem findVictim_some (bc : Nat → List Buf) (ri rp rlu : Nat)
    (h : findVictim bc = some (ri, rp, rlu)) :
    ri < NBUFMAP_BUCKET ∧ ∃ hp : rp < (bc ri).length,
      ((bc ri).get ⟨rp, hp⟩).refcnt = 0 ∧
      ((bc ri).get ⟨rp, hp⟩).lastuse = rlu ∧
      (∀ j, j < NBUFMAP_BUCKET → ∀ c ∈ bc j, c.refcnt = 0 →
        rlu ≤ c.lastuse) := by
  rw [findVictim] at h
  obtain ⟨tri, hmin, -⟩ := foldScan_some bc (List.range NBUFMAP_BUCKET)
    none ri rp rlu h
  rcases tri with heq | ⟨hmem, hp, hz, hlu⟩
  · simp at heq
  · exact ⟨List.mem_range.mp hmem, hp, hz, hlu,
      fun j hj => hmin j (List.mem_range.mpr hj)⟩


/-- C7: acquire_buffer (bget).  On a hash-bucket hit it bumps the hit
buffer's refcount and returns it (the state changing only by that bump);
on a full miss it panics exactly when every cached buffer has nonzero
refcount, and otherwise returns a buffer reinitialized to the requested
identity with refcnt 1 and valid 0, recycling a refcnt-0 buffer whose
last-use tick is minimal across every bucket, placed in the target
bucket. -/
theorem bget_spec :
    (∀ (bc : Nat → List Buf) (dev blockno p : Nat) (b : Buf),
      findBufIdx dev blockno (bc (BUFMAP_HASH dev blockno)) = some (p, b) →
      b.dev = dev ∧ b.blockno = blockno ∧
      bget bc dev blockno = some ({ b with refcnt := b.refcnt + 1 },
        updF bc (BUFMAP_HASH dev blockno)
          ((bc (BUFMAP_HASH dev blockno)).set p
            { b with refcnt := b.refcnt + 1 }))) ∧
    (∀ (bc : Nat → List Buf) (dev blockno : Nat),
      findBufIdx dev blockno (bc (BUFMAP_HASH dev blockno)) = none →
      (bget bc dev blockno = none ↔
        ∀ j, j < NBUFMAP_BUCKET → ∀ c ∈ bc j, c.refcnt ≠ 0)) ∧
    (∀ (bc : Nat → List Buf) (dev blockno : Nat) (rb : Buf)
       (bc2 : Nat → List Buf),
      findBufIdx dev blockno (bc (BUFMAP_HASH dev blockno)) = none →
      bget bc dev blockno = some (rb, bc2) →
      rb.dev = dev ∧ rb.blockno = blockno ∧ rb.refcnt = 1 ∧
      rb.valid = false ∧
      (∃ (i p : Nat) (b : Buf), i < NBUFMAP_BUCKET ∧ (bc i)[p]? = some b ∧
        b.refcnt = 0 ∧ rb.lastuse = b.lastuse ∧
        ∀ j, j < NBUFMAP_BUCKET → ∀ c ∈ bc j, c.refcnt = 0 →
          b.lastuse ≤ c.lastuse) ∧
      rb ∈ bc2 (BUFMAP_HASH dev blockno)) := by
  refine ⟨?_, ?_, ?_⟩
  · intro bc dev blockno p b hfind
    obtain ⟨hd, hb, hptr⟩ := findBufIdx_hit dev blockno _ p b hfind
    refine ⟨hd, hb, ?_⟩
    simp only [bget, hfind]
  · intro bc dev blockno hmiss
    constructor
    · intro hnone
      cases hv : findVictim bc with
      | none => exact (findVictim_none bc).mp hv
      | some t =>
        obtain ⟨ti, tp, tlu⟩ := t
        obtain ⟨hlt, hp, hz, hlu, hminv⟩ := findVictim_some bc ti tp tlu hv
        simp only [bget, hmiss, hv] at hnone
        have hptr : (bc ti)[tp]? = some ((bc ti).get ⟨tp, hp⟩) := by
          simp [List.getElem?_eq_getElem hp]
        rw [hptr] at hnone
        split at hnone
        · simp_all
        · split at hnone <;> simp_all
    · intro hall
      have hv : findVictim bc = none := (findVictim_none bc).mpr hall
      simp only [bget, hmiss, hv]
  · intro bc dev blockno rb bc2 hmiss hrun
    simp only [bget, hmiss] at hrun
    cases hv : findVictim bc with
    | none =>
      rw [hv] at hrun
      simp at hrun
    | some t =>
      obtain ⟨ti, tp, tlu⟩ := t
      rw [hv] at hrun
      obtain ⟨hlt, hp, hz, hlu, hminv⟩ := findVictim_some bc ti tp tlu hv
      have hptr : (bc ti)[tp]? = some ((bc ti).get ⟨tp, hp⟩) := by
        simp [List.getElem?_eq_getElem hp]
      simp only [hptr] at hrun
      split at hrun
      · next hne =>
        injection hrun with hrun
        cases hrun
        refine ⟨rfl, rfl, rfl, rfl, ?_, ?_⟩
        · exact ⟨ti, tp, (bc ti).get ⟨tp, hp⟩, hlt, hptr, hz, rfl,
            fun j hj c hc hcz => by
              rw [hlu]
              exact hminv j hj c hc hcz⟩
        · simp [updF]
      · next hne =>
        have hti : ti = BUFMAP_HASH dev blockno := by
          by_contra hcon
          exact hne hcon
        injection hrun with hrun
        cases hrun
        refine ⟨rfl, rfl, rfl, rfl, ?_, ?_⟩
        · exact ⟨ti, tp, (bc ti).get ⟨tp, hp⟩, hlt, hptr, hz, rfl,
            fun j hj c hc hcz => by
              rw [hlu]
              exact hminv j hj c hc hcz⟩
        · subst hti
          simp only [updF, if_pos rfl]
          exact List.mem_set _ tp hp _

/-- A two-buffer bucket holding the requested block: the hit path. -/
def bcHit : Nat → List Buf := fun j =>
  if j = 5 then
    [{ dev := 0, blockno := 31, refcnt := 2, valid := true, lastuse := 10 },
     { dev := 0, blockno := 18, refcnt := 3, valid := true, lastuse := 4 }]
  else []

/-- Every cached buffer busy: the panic path. -/
def bcFull : Nat → List Buf := fun j =>
  if j = 5 then
    [{ dev := 0, blockno := 31, refcnt := 2, valid := true, lastuse := 10 }]
  else if j = 0 then
    [{ dev := 0, blockno := 13, refcnt := 1, valid := true, lastuse := 2 }]
  else []

/-- A cache where the least-recently-used free buffer sits in another
bucket: the eviction path. -/
def bcEv : Nat → List Buf := fun j =>
  if j = 5 then
    [{ dev := 0, blockno := 31, refcnt := 2, valid := true, lastuse := 10 }]
  else if j = 7 then
    [{ dev := 0, blockno := 20, refcnt := 0, valid := true, lastuse := 3 }]
  else if j = 2 then
    [{ dev := 0, blockno := 2, refcnt := 0, valid := true, lastuse := 9 }]
  else []

/-- The buffer bget hands back on the eviction path of bcEv. -/
def rbEv : Buf :=
  { dev := 0, blockno := 5, refcnt := 1, valid := false, lastuse := 3 }

/-- The cache bget leaves behind on the eviction path of bcEv. -/
def bc2Ev : Nat → List Buf :=
  updF (updF bcEv 7 ((bcEv 7).eraseIdx 0)) 5
    (rbEv :: updF bcEv 7 ((bcEv 7).eraseIdx 0) 5)

theorem bget_spec_witness :
    ((bget bcHit 0 18).map Prod.fst =
      some { dev := 0, blockno := 18, refcnt := 4, valid := true,
             lastuse := 4 }) ∧
    bget bcFull 0 5 = none ∧
    (rbEv.refcnt = 1 ∧ rbEv.valid = false ∧ rbEv ∈ bc2Ev 5) := by
  refine ⟨?_, ?_, ?_⟩
  · have h := (bget_spec.1 bcHit 0 18 1
      { dev := 0, blockno := 18, refcnt := 3, valid := true, lastuse := 4 }
      (by decide)).2.2
    rw [h]
    rfl
  · exact (bget_spec.2.1 bcFull 0 5 (by decide)).mpr (by decide)
  · have h := bget_spec.2.2 bcEv 0 5 rbEv bc2Ev (by decide) rfl
    exact ⟨h.2.2.1, h.2.2.2.1, h.2.2.2.2.2⟩


/-- Inode type tags.  kernel/stat.h is not among the sources; the values
are modelled from the spec's type enumeration (file/dir/device), only
their distinctness matters below. -/
def T_DIR : Nat := 1
def T_FILE : Nat := 2
def T_DEVICE : Nat := 3

/-- An on-disk inode as sys_unlink sees it (fs.h struct dinode): type,
link count, and - for directories - the dirent slot array, each slot a
(inum, name) pair, inum 0 marking a free slot. -/
structure Ino where
  typ : Nat
  nlink : Nat
  entries : List (Nat × String)
deriving DecidableEq

/-- Events sys_unlink emits towards the log layer, in order: the
begin_op/end_op transaction brackets, the writei that zeroes a dirent
slot of a directory inode, and each iupdate write-through of an inode. -/
inductive FsEv where
  | beginOp : FsEv
  | endOp : FsEv
  | writeDirent (inum off : Nat) : FsEv
  | iupdateEv (inum : Nat) : FsEv
deriving DecidableEq

/-- The file-system state sys_unlink acts on: the inode table indexed by
inode number, and the trace of log-layer events emitted so far. -/
structure FsSt where
  itab : Nat → Ino
  trace : List FsEv

/-- dirlookup's scan from kernel/fs.c: walk the dirent slots in offset
order, skip slots with inum 0, return the offset (in dirent units) and
inum of the first slot whose name matches. -/
def dirlookupGo (name : String) : List (Nat × String) → Nat →
    Option (Nat × Nat)
  | [], _ => none
  | e :: rest, off =>
    if e.1 ≠ 0 ∧ e.2 = name then some (off, e.1)
    else dirlookupGo name rest (off + 1)

/-- dirlookup from kernel/fs.c (offsets counted in dirent units). -/
def dirlookup (dp : Ino) (name : String) : Option (Nat × Nat) :=
  dirlookupGo name dp.entries 0

/-- isdirempty from kernel/sysfile.c: every dirent slot from offset 2
on (past "." and "..") has inum 0. -/
def isdirempty (ip : Ino) : Bool :=
  (ip.entries.drop 2).all (fun e => e.1 = 0)

/-- Append end_op to the trace. -/
def endTrace (fs : FsSt) : FsSt :=
  { fs with trace := fs.trace ++ [FsEv.endOp] }

/-- sys_unlink from kernel/sysfile.c, after argstr has fetched the path.
nameiRes stands for nameiparent's result: the parent directory's inode
number and the final path component, or none on resolution failure.
The \x7bnone\x7d result models a panic (dirlookup on a non-directory,
or nlink < 1).  Error paths return -1 having emitted only the
begin_op/end_op brackets; the success path zeroes the dirent slot,
decrements the parent's nlink too when the target is a directory,
updates both inodes and returns 0, all inside the one transaction. -/
def sys_unlink (fs : FsSt) (nameiRes : Option (Nat × String)) :
    Option (Int × FsSt) :=
  let fs0 : FsSt := { fs with trace := fs.trace ++ [FsEv.beginOp] }
  match nameiRes with
  | none => some (-1, endTrace fs0)
  | some (dpi, name) =>
    if (fs0.itab dpi).typ ≠ T_DIR then none
    else if name = "." ∨ name = ".." then some (-1, endTrace fs0)
    else
      match dirlookup (fs0.itab dpi) name with
      | none => some (-1, endTrace fs0)
      | some (off, ipi) =>
        let ip := fs0.itab ipi
        if ip.nlink < 1 then none
        else if ip.typ = T_DIR ∧ isdirempty ip = false then
          some (-1, endTrace fs0)
        else
          let dp := fs0.itab dpi
          let dp1 : Ino := { dp with entries := dp.entries.set off (0, "") }
          let dp2 : Ino :=
            if ip.typ = T_DIR then { dp1 with nlink := dp1.nlink - 1 }
            else dp1
          let tr1 : List FsEv :=
            if ip.typ = T_DIR then [FsEv.iupdateEv dpi] else []
          let ip1 : Ino := { ip with nlink := ip.nlink - 1 }
          some (0,
            { itab := updF (updF fs0.itab dpi dp2) ipi ip1,
              trace := fs0.trace ++ [FsEv.writeDirent dpi off] ++ tr1 ++
                [FsEv.iupdateEv ipi, FsEv.endOp] })

/-- C8: sys_unlink.  With the parent resolved to a directory: a final
component of "." or "..", an absent target, or a target that is a
non-empty directory each yield -1 with the inode table unchanged and
only the begin_op/end_op brackets emitted; otherwise the dirent slot is
zeroed, the target's nlink drops by one (and the parent's too when the
target is a directory), both inodes are written through inside the one
transaction, and every other inode is untouched. -/
theorem sys_unlink_spec (fs : FsSt) (dpi : Nat) (name : String)
    (hdp : (fs.itab dpi).typ = T_DIR) :
    ((name = "." ∨ name = "..") →
      sys_unlink fs (some (dpi, name)) =
        some (-1, FsSt.mk fs.itab
          (fs.trace ++ [FsEv.beginOp, FsEv.endOp]))) ∧
    (¬ (name = "." ∨ name = "..") →
      dirlookup (fs.itab dpi) name = none →
      sys_unlink fs (some (dpi, name)) =
        some (-1, FsSt.mk fs.itab
          (fs.trace ++ [FsEv.beginOp, FsEv.endOp]))) ∧
    (∀ off ipi, ¬ (name = "." ∨ name = "..") →
      dirlookup (fs.itab dpi) name = some (off, ipi) →
      1 ≤ (fs.itab ipi).nlink →
      (fs.itab ipi).typ = T_DIR → isdirempty (fs.itab ipi) = false →
      sys_unlink fs (some (dpi, name)) =
        some (-1, FsSt.mk fs.itab
          (fs.trace ++ [FsEv.beginOp, FsEv.endOp]))) ∧
    (∀ off ipi, ¬ (name = "." ∨ name = "..") →
      dirlookup (fs.itab dpi) name = some (off, ipi) →
      1 ≤ (fs.itab ipi).nlink →
      ((fs.itab ipi).typ = T_DIR → isdirempty (fs.itab ipi) = true) →
      ipi ≠ dpi →
      ∃ fs2, sys_unlink fs (some (dpi, name)) = some (0, fs2) ∧
        fs2.itab ipi = { fs.itab ipi with
                           nlink := (fs.itab ipi).nlink - 1 } ∧
        fs2.itab dpi = { fs.itab dpi with
                           entries := (fs.itab dpi).entries.set off (0, ""),
                           nlink := if (fs.itab ipi).typ = T_DIR then
                             (fs.itab dpi).nlink - 1
                           else (fs.itab dpi).nlink } ∧
        (∀ j, j ≠ dpi → j ≠ ipi → fs2.itab j = fs.itab j) ∧
        fs2.trace = fs.trace ++ [FsEv.beginOp, FsEv.writeDirent dpi off] ++
          (if (fs.itab ipi).typ = T_DIR then [FsEv.iupdateEv dpi] else []) ++
          [FsEv.iupdateEv ipi, FsEv.endOp]) := by
  refine ⟨?_, ?_, ?_, ?_⟩
  · intro hname
    rcases hname with rfl | rfl <;> simp [sys_unlink, endTrace, hdp]
  · intro hname hlook
    simp [sys_unlink, endTrace, hdp, hname, hlook]
  · intro off ipi hname hlook hnl htyp hne
    have hnl2 : ¬ (fs.itab ipi).nlink < 1 := by omega
    simp [sys_unlink, endTrace, hdp, hname, hlook, hnl2, htyp, hne]
  · intro off ipi hname hlook hnl hemp hne
    have hnl2 : ¬ (fs.itab ipi).nlink < 1 := by omega
    have hcond : ¬ ((fs.itab ipi).typ = T_DIR ∧
        isdirempty (fs.itab ipi) = false) := by
      rintro ⟨h1, h2⟩
      rw [hemp h1] at h2
      simp at h2
    by_cases htd : (fs.itab ipi).typ = T_DIR
    · refine ⟨FsSt.mk
        (updF (updF fs.itab dpi
          { typ := (fs.itab dpi).typ,
            nlink := (fs.itab dpi).nlink - 1,
            entries := (fs.itab dpi).entries.set off (0, "") })
          ipi
          { typ := (fs.itab ipi).typ,
            nlink := (fs.itab ipi).nlink - 1,
            entries := (fs.itab ipi).entries })
        (fs.trace ++ [FsEv.beginOp, FsEv.writeDirent dpi off,
          FsEv.iupdateEv dpi, FsEv.iupdateEv ipi, FsEv.endOp]),
        ?_, ?_, ?_, ?_, ?_⟩
      · simp [sys_unlink, hdp, hname, hlook, hnl2, hcond, htd, hemp htd]
      · simp [updF]
      · simp [updF, Ne.symm hne, htd]
      · intro j hj1 hj2
        simp [updF, hj1, hj2]
      · simp [htd]
    · refine ⟨FsSt.mk
        (updF (updF fs.itab dpi
          { typ := (fs.itab dpi).typ,
            nlink := (fs.itab dpi).nlink,
            entries := (fs.itab dpi).entries.set off (0, "") })
          ipi
          { typ := (fs.itab ipi).typ,
            nlink := (fs.itab ipi).nlink - 1,
            entries := (fs.itab ipi).entries })
        (fs.trace ++ [FsEv.beginOp, FsEv.writeDirent dpi off,
          FsEv.iupdateEv ipi, FsEv.endOp]),
        ?_, ?_, ?_, ?_, ?_⟩
      · simp [sys_unlink, hdp, hname, hlook, hnl2, hcond, htd]
      · simp [updF]
      · simp [updF, Ne.symm hne, htd]
      · intro j hj1 hj2
        simp [updF, hj1, hj2]
      · simp [htd]

/-- A small concrete file system: root directory 1 holding file "a"
(inode 2), empty directory "d" (inode 3) and non-empty directory "e"
(inode 4). -/
def fsW : FsSt :=
  FsSt.mk
    (fun j =>
      if j = 1 then
        Ino.mk T_DIR 3 [(1, "."), (1, ".."), (2, "a"), (3, "d"),
                        (4, "e"), (0, "")]
      else if j = 2 then Ino.mk T_FILE 1 []
      else if j = 3 then Ino.mk T_DIR 2 [(3, "."), (1, "..")]
      else if j = 4 then Ino.mk T_DIR 2 [(4, "."), (1, ".."), (2, "x")]
      else Ino.mk 0 0 [])
    []

theorem sys_unlink_spec_witness :
    (sys_unlink fsW (some (1, "."))).map Prod.fst = some (-1) ∧
    (sys_unlink fsW (some (1, "zz"))).map Prod.fst = some (-1) ∧
    (sys_unlink fsW (some (1, "e"))).map Prod.fst = some (-1) ∧
    (sys_unlink fsW (some (1, "a"))).map
        (fun q => (q.1, q.2.itab 2, q.2.itab 1, q.2.trace)) =
      some (0, Ino.mk T_FILE 0 [],
        Ino.mk T_DIR 3 [(1, "."), (1, ".."), (0, ""), (3, "d"),
                        (4, "e"), (0, "")],
        [FsEv.beginOp, FsEv.writeDirent 1 2, FsEv.iupdateEv 2,
         FsEv.endOp]) := by
  refine ⟨?_, ?_, ?_, ?_⟩
  · have h := (sys_unlink_spec fsW 1 "." rfl).1 (Or.inl rfl)
    rw [h]
    rfl
  · have h := (sys_unlink_spec fsW 1 "zz" rfl).2.1 (by decide) (by decide)
    rw [h]
    rfl
  · have h := (sys_unlink_spec fsW 1 "e" rfl).2.2.1 4 4 (by decide)
      (by decide) (by decide) (by decide) (by decide)
    rw [h]
    rfl
  · obtain ⟨fs2, hrun, h1, h2, h3, h4⟩ :=
      (sys_unlink_spec fsW 1 "a" rfl).2.2.2 2 2 (by decide) (by decide)
        (by decide) (by decide) (by decide)
    rw [hrun]
    show some (0, fs2.itab 2, fs2.itab 1, fs2.trace) = _
    rw [h1, h2, h4]
    decide

/-- Disk layout parameters.  kernel/fs.h is not among the sources; the
values are modelled from the spec's parameter list (BSIZE=1024,
NINDIRECT=BSIZE/4) and the double-indirect addrs[NDIRECT+2] layout the
spec and kernel/fs.c's bmap describe. -/
def BSIZE : Nat := 1024
def NDIRECT : Nat := 11
def NINDIRECT : Nat := BSIZE / 4
def MAXFILE : Nat := NDIRECT + NINDIRECT + NINDIRECT * NINDIRECT

/-- The transfer loop of readi from kernel/fs.c.  tot/off advance by
m = min (n - tot) (BSIZE - off % BSIZE) per iteration; copyOk k tells
whether the k-th either_copyout succeeds; a failure sets the result
to -1 and stops.  The fuel is an upper bound on the iteration count
(m is at least 1, so n suffices). -/
def readiGo (n : Nat) (copyOk : Nat → Bool) :
    Nat → Nat → Nat → Nat → Int
  | 0, tot, _, _ => (tot : Int)
  | fuel + 1, tot, off, k =>
    if tot < n then
      let m := min (n - tot) (BSIZE - off % BSIZE)
      if copyOk k then readiGo n copyOk fuel (tot + m) (off + m) (k + 1)
      else (-1 : Int)
    else (tot : Int)

/-- readi from kernel/fs.c, abstracted over the copy oracle: returns 0
when off is past the file or off+n overflows the 32-bit unsigned
addition; otherwise clamps n to the file size and runs the transfer
loop, returning the byte count (or -1 on a failed copy-out). -/
def readi (size off n : Nat) (copyOk : Nat → Bool) : Int :=
  if off > size ∨ (off + n) % 2 ^ 32 < off then 0
  else
    let n2 := if off + n > size then size - off else n
    readiGo n2 copyOk n2 0 off 0

/-- The transfer loop of writei from kernel/fs.c: besides the byte
count it returns the block numbers passed to log_write, in order; a
failed either_copyin stops the loop without a log_write. -/
def writeiGo (n : Nat) (copyOk : Nat → Bool) :
    Nat → Nat → Nat → Nat → Nat × List Nat
  | 0, tot, _, _ => (tot, [])
  | fuel + 1, tot, off, k =>
    if tot < n then
      let m := min (n - tot) (BSIZE - off % BSIZE)
      if copyOk k then
        let r := writeiGo n copyOk fuel (tot + m) (off + m) (k + 1)
        (r.1, off / BSIZE :: r.2)
      else (tot, [])
    else (tot, [])

/-- writei from kernel/fs.c, abstracted over the copy oracle: result,
log_write trace and the inode's size after the call.  It refuses (-1,
nothing written) an off past the file, a 32-bit overflow of off+n, and
an end past MAXFILE*BSIZE; otherwise it runs the loop and grows the
size to off+tot when the write extended the file. -/
def writei (size off n : Nat) (copyOk : Nat → Bool) :
    Int × List Nat × Nat :=
  if off > size ∨ (off + n) % 2 ^ 32 < off then (-1, [], size)
  else if off + n > MAXFILE * BSIZE then (-1, [], size)
  else
    let r := writeiGo n copyOk n 0 off 0
    ((r.1 : Int), r.2, if off + r.1 > size then off + r.1 else size)

/-- The readi loop never transfers more than the clamped n bytes. -/
theorem readiGo_le (n : Nat) (copyOk : Nat → Bool) :
    ∀ fuel tot off k, tot ≤ n →
      readiGo n copyOk fuel tot off k ≤ (n : Int) := by
  intro fuel
  induction fuel with
  | zero =>
    intro tot off k h
    simp only [readiGo]
    exact_mod_cast h
  | succ fuel ih =>
    intro tot off k h
    simp only [readiGo]
    split
    · split
      · exact ih _ _ _ (by omega)
      · omega
    · exact_mod_cast h

/-- The writei loop never writes more than n bytes. -/
theorem writeiGo_le (n : Nat) (copyOk : Nat → Bool) :
    ∀ fuel tot off k, tot ≤ n →
      (writeiGo n copyOk fuel tot off k).1 ≤ n := by
  intro fuel
  induction fuel with
  | zero =>
    intro tot off k h
    simpa [writeiGo] using h
  | succ fuel ih =>
    intro tot off k h
    simp only [writeiGo]
    split
    · split
      · exact ih _ _ _ (by omega)
      · simpa using h
    · simpa using h

/-- C10: readi/writei bounds.  readi returns 0 when off is past the
file or off+n overflows 32-bit arithmetic, and otherwise transfers at
most size - off bytes; writei returns -1 touching neither the log nor
the size when off is past the file, off+n overflows, or the write
would end past MAXFILE*BSIZE, and otherwise leaves the size at most
MAXFILE*BSIZE when it started there. -/
theorem readi_writei_bounds (size off n : Nat) (copyOk : Nat → Bool) :
    ((off > size ∨ (off + n) % 2 ^ 32 < off) →
      readi size off n copyOk = 0) ∧
    (¬ (off > size ∨ (off + n) % 2 ^ 32 < off) →
      readi size off n copyOk ≤ ((size - off : Nat) : Int)) ∧
    ((off > size ∨ (off + n) % 2 ^ 32 < off ∨
        off + n > MAXFILE * BSIZE) →
      writei size off n copyOk = (-1, [], size)) ∧
    (¬ (off > size ∨ (off + n) % 2 ^ 32 < off ∨
        off + n > MAXFILE * BSIZE) →
      size ≤ MAXFILE * BSIZE →
      (writei size off n copyOk).2.2 ≤ MAXFILE * BSIZE) := by
  refine ⟨?_, ?_, ?_, ?_⟩
  · intro h
    simp only [readi, if_pos h]
  · intro h
    simp only [readi, if_neg h]
    have hos : off ≤ size := by
      rcases le_or_lt off size with h1 | h1
      · exact h1
      · exact absurd (Or.inl h1) h
    by_cases hc : off + n > size
    · rw [if_pos hc]
      exact readiGo_le _ copyOk _ 0 off 0 (Nat.zero_le _)
    · rw [if_neg hc]
      calc readiGo n copyOk n 0 off 0 ≤ (n : Int) :=
            readiGo_le n copyOk n 0 off 0 (Nat.zero_le _)
        _ ≤ ((size - off : Nat) : Int) := by
            have : n ≤ size - off := by omega
            exact_mod_cast this
  · intro h
    rcases h with h1 | h2
    · simp only [writei, if_pos (Or.inl h1)]
    · rcases h2 with h2 | h3
      · simp only [writei, if_pos (Or.inr h2)]
      · by_cases hg : off > size ∨ (off + n) % 2 ^ 32 < off
        · simp only [writei, if_pos hg]
        · simp only [writei, if_neg hg, if_pos h3]
  · intro h hsz
    have h1 : ¬ (off > size ∨ (off + n) % 2 ^ 32 < off) := by tauto
    have h3 : ¬ off + n > MAXFILE * BSIZE := by tauto
    simp only [writei, if_neg h1, if_neg h3]
    have htot := writeiGo_le n copyOk n 0 off 0 (Nat.zero_le _)
    split
    · omega
    · exact hsz

theorem readi_writei_bounds_witness :
    readi 100 200 4 (fun _ => true) = 0 ∧
    readi 100 0 50 (fun _ => true) ≤ ((100 - 0 : Nat) : Int) ∧
    writei 100 (2 ^ 32 - 4) 8 (fun _ => true) = (-1, [], 100) ∧
    (writei 100 0 50 (fun _ => true)).2.2 ≤ MAXFILE * BSIZE :=
  ⟨(readi_writei_bounds 100 200 4 (fun _ => true)).1 (by decide),
   (readi_writei_bounds 100 0 50 (fun _ => true)).2.1 (by decide),
   (readi_writei_bounds 100 (2 ^ 32 - 4) 8 (fun _ => true)).2.2.1
     (by decide),
   (readi_writei_bounds 100 0 50 (fun _ => true)).2.2.2 (by decide)
     (by decide)⟩

/-- T_SYMLINK, the symlink inode type the spec describes.  Neither
kernel/stat.h nor any source file defines or tests it; the value is
modelled from the spec, distinct from the other type tags. -/
def T_SYMLINK : Nat := 4

/-- NDEV from kernel/param.h. -/
def NDEV : Nat := 10

/-- Open-mode bits.  kernel/fcntl.h is not among the sources; the
values are modelled from the spec's flag list, and only the bit tests
sys_open performs matter.  O_NOFOLLOW appears in the spec only: no
source file tests such a bit. -/
def O_RDONLY : Nat := 0x000
def O_WRONLY : Nat := 0x001
def O_RDWR : Nat := 0x002
def O_CREATE : Nat := 0x200
def O_TRUNC : Nat := 0x400
def O_NOFOLLOW : Nat := 0x800

/-- The inode fields sys_open inspects: number, type tag and device
major number. -/
structure OInode where
  inum : Nat
  typ : Nat
  major : Int
deriving DecidableEq

/-- A struct file's type tag (kernel/file.h): FD_INODE or FD_DEVICE. -/
inductive FTy where
  | inode : FTy
  | device : FTy
deriving DecidableEq

/-- The struct file fields sys_open fills in: type, device major,
offset, the inode it references (by number), and the read/write
permission bits. -/
structure FileR where
  ftype : FTy
  major : Int
  off : Nat
  ip : Nat
  readable : Bool
  writable : Bool
deriving DecidableEq

/-- The tail of sys_open from kernel/sysfile.c, after the inode is in
hand: the device-major range check, file/fd allocation (fdRes none
models filealloc/fdalloc failure), field initialization, and the
O_TRUNC truncation of regular files.  Result: the fd or -1, the file
created, and whether itrunc ran. -/
def sys_open_rest (omode : Nat) (ip : OInode) (fdRes : Option Nat) :
    Int × Option FileR × Bool :=
  if ip.typ = T_DEVICE ∧ (ip.major < 0 ∨ (NDEV : Int) ≤ ip.major) then
    (-1, none, false)
  else
    match fdRes with
    | none => (-1, none, false)
    | some fd =>
      let f : FileR :=
        if ip.typ = T_DEVICE then
          { ftype := FTy.device, major := ip.major, off := 0,
            ip := ip.inum,
            readable := omode &&& O_WRONLY = 0,
            writable := omode &&& O_WRONLY ≠ 0 ∨ omode &&& O_RDWR ≠ 0 }
        else
          { ftype := FTy.inode, major := 0, off := 0, ip := ip.inum,
            readable := omode &&& O_WRONLY = 0,
            writable := omode &&& O_WRONLY ≠ 0 ∨ omode &&& O_RDWR ≠ 0 }
      ((fd : Int), some f, omode &&& O_TRUNC ≠ 0 ∧ ip.typ = T_FILE)

/-- sys_open from kernel/sysfile.c, abstracted over the resolution
results: createRes is what create(path, T_FILE, 0, 0) yields under
O_CREATE, nameiRes what namei(path) yields otherwise (none for
failure), fdRes the allocated descriptor.  Directories may only be
opened read-only; nothing in the function inspects T_SYMLINK or any
O_NOFOLLOW bit, so a symlink-typed inode flows to the FD_INODE branch
like a regular file. -/
def sys_open (omode : Nat) (createRes nameiRes : Option OInode)
    (fdRes : Option Nat) : Int × Option FileR × Bool :=
  if omode &&& O_CREATE ≠ 0 then
    match createRes with
    | none => (-1, none, false)
    | some ip => sys_open_rest omode ip fdRes
  else
    match nameiRes with
    | none => (-1, none, false)
    | some ip =>
      if ip.typ = T_DIR ∧ omode ≠ O_RDONLY then (-1, none, false)
      else sys_open_rest omode ip fdRes

/-- The claim's symlink clause, following the spec's words: an open
without O_NOFOLLOW of a path resolving to a T_SYMLINK inode restarts
resolution at the link target, so the handle it returns never
references the symlink inode itself. -/
def ClaimC3 : Prop :=
  ∀ (sl : OInode) (omode fd : Nat),
    sl.typ = T_SYMLINK → omode &&& O_NOFOLLOW = 0 →
    omode &&& O_CREATE = 0 →
    ∀ f, (sys_open omode none (some sl) (some fd)).2.1 = some f →
      f.ip ≠ sl.inum

/-- C3 counterexample: sys_open performs no symlink following at all.
Opening a T_SYMLINK inode with plain O_RDONLY (no O_NOFOLLOW bit set)
succeeds and returns an FD_INODE handle referencing the symlink inode
itself - even when the on-disk link structure is cyclic, since
resolution is never restarted - contradicting the claim. -/
theorem claimC3_false : ¬ ClaimC3 := by
  intro h
  have := h (OInode.mk 7 T_SYMLINK 0) O_RDONLY 3 rfl rfl rfl
    (FileR.mk FTy.inode 0 0 7 true false) (by decide)
  exact this rfl

/-- C3 amended: what sys_open actually does.  Without O_CREATE: a
failed namei yields -1; a directory with a mode other than O_RDONLY
yields -1; a device inode with major outside [0, NDEV) yields -1; a
failed file/fd allocation yields -1; otherwise the fd is returned with
a file of type FD_DEVICE for device inodes and FD_INODE for every
other type - T_SYMLINK included, with no follow, no depth limit and no
O_NOFOLLOW test - readable iff O_WRONLY is clear, writable iff
O_WRONLY or O_RDWR is set, and itrunc runs iff O_TRUNC is set and the
inode is a regular file. -/
theorem sys_open_spec (omode : Nat) (fdRes : Option Nat) :
    (omode &&& O_CREATE = 0 →
      sys_open omode none none fdRes = (-1, none, false)) ∧
    (∀ ip, omode &&& O_CREATE = 0 → ip.typ = T_DIR → omode ≠ O_RDONLY →
      sys_open omode none (some ip) fdRes = (-1, none, false)) ∧
    (∀ ip, omode &&& O_CREATE = 0 → ip.typ = T_DEVICE →
      (ip.major < 0 ∨ (NDEV : Int) ≤ ip.major) →
      sys_open omode none (some ip) fdRes = (-1, none, false)) ∧
    (∀ ip, omode &&& O_CREATE = 0 →
      ¬ (ip.typ = T_DIR ∧ omode ≠ O_RDONLY) →
      ¬ (ip.typ = T_DEVICE ∧ (ip.major < 0 ∨ (NDEV : Int) ≤ ip.major)) →
      sys_open omode none (some ip) none = (-1, none, false)) ∧
    (∀ ip fd, omode &&& O_CREATE = 0 → ip.typ ≠ T_DIR →
      ip.typ ≠ T_DEVICE →
      sys_open omode none (some ip) (some fd) =
        ((fd : Int),
         some (FileR.mk FTy.inode 0 0 ip.inum
           (omode &&& O_WRONLY = 0)
           (decide (omode &&& O_WRONLY ≠ 0 ∨ omode &&& O_RDWR ≠ 0))),
         decide (omode &&& O_TRUNC ≠ 0 ∧ ip.typ = T_FILE))) ∧
    (∀ ip fd, omode &&& O_CREATE = 0 → ip.typ = T_DEVICE →
      0 ≤ ip.major → ip.major < (NDEV : Int) →
      sys_open omode none (some ip) (some fd) =
        ((fd : Int),
         some (FileR.mk FTy.device ip.major 0 ip.inum
           (omode &&& O_WRONLY = 0)
           (decide (omode &&& O_WRONLY ≠ 0 ∨ omode &&& O_RDWR ≠ 0))),
         false)) := by
  refine ⟨?_, ?_, ?_, ?_, ?_, ?_⟩
  · intro hc
    simp [sys_open, hc]
  · intro ip hc hd hm
    simp [sys_open, hc, hd, hm]
  · intro ip hc hd hm
    have hnd : ip.typ ≠ T_DIR := by
      rw [hd]
      decide
    simp [sys_open, sys_open_rest, hc, hd, hm, hnd]
  · intro ip hc h1 h2
    simp only [sys_open, sys_open_rest, hc]
    rw [if_neg (by decide), if_neg h1, if_neg h2]
  · intro ip fd hc hnd hnv
    simp only [sys_open, sys_open_rest, hc]
    rw [if_neg (by decide), if_neg (by tauto),
      if_neg (by rintro ⟨h1, -⟩; exact hnv h1)]
    simp only [if_neg hnv]
  · intro ip fd hc hd hm1 hm2
    simp only [sys_open, sys_open_rest, hc]
    rw [if_neg (by decide), if_neg (by
        rintro ⟨h1, -⟩
        rw [hd] at h1
        exact absurd h1 (by decide)),
      if_neg (by rintro ⟨-, h2 | h2⟩ <;> omega)]
    simp only [if_pos hd]
    have htrunc : ¬ (omode &&& O_TRUNC ≠ 0 ∧ ip.typ = T_FILE) := by
      rintro ⟨-, h2⟩
      rw [hd] at h2
      exact absurd h2 (by decide)
    simp [htrunc]

theorem sys_open_spec_witness :
    sys_open O_RDWR none none (some 4) = (-1, none, false) ∧
    sys_open O_RDWR none (some (OInode.mk 1 T_DIR 0)) (some 4) =
      (-1, none, false) ∧
    sys_open O_RDONLY none (some (OInode.mk 9 T_DEVICE 12)) (some 4) =
      (-1, none, false) ∧
    sys_open O_RDONLY none (some (OInode.mk 2 T_FILE 0)) none =
      (-1, none, false) ∧
    sys_open (O_WRONLY + O_TRUNC) none (some (OInode.mk 2 T_FILE 0))
        (some 5) =
      (5, some (FileR.mk FTy.inode 0 0 2 false true), true) ∧
    sys_open O_RDWR none (some (OInode.mk 9 T_DEVICE 4)) (some 6) =
      (6, some (FileR.mk FTy.device 4 0 9 true true), false) := by
  refine ⟨?_, ?_, ?_, ?_, ?_, ?_⟩
  · exact (sys_open_spec O_RDWR (some 4)).1 (by decide)
  · exact (sys_open_spec O_RDWR (some 4)).2.1 (OInode.mk 1 T_DIR 0)
      (by decide) rfl (by decide)
  · exact (sys_open_spec O_RDONLY (some 4)).2.2.1 (OInode.mk 9 T_DEVICE 12)
      (by decide) rfl (by decide)
  · exact (sys_open_spec O_RDONLY none).2.2.2.1 (OInode.mk 2 T_FILE 0)
      (by decide) (by decide) (by decide)
  · have h := (sys_open_spec (O_WRONLY + O_TRUNC) (some 5)).2.2.2.2.1
      (OInode.mk 2 T_FILE 0) 5 (by decide) (by decide) (by decide)
    rw [h]
    decide
  · have h := (sys_open_spec O_RDWR (some 6)).2.2.2.2.2
      (OInode.mk 9 T_DEVICE 4) 6 (by decide) rfl (by decide) (by decide)
    rw [h]
    decide

end Xv6
